import Mathlib

/-!
Verification of the onstaq-automation engine (TypeScript) against its
natural-language specification.  The definitions below are a shallow
embedding of the relevant source functions:

* `src/engine/executor.ts` — concurrency gate, component walk, status
  aggregation, trigger-event handling;
* `src/engine/trigger-manager.ts` — `pollOnce`, `pollOqlMatch`;
* `src/engine/condition-evaluator.ts` — `compareValue`, `looseEquals`;
* `src/engine/template-resolver.ts` and `src/engine/smart-values/*` —
  tokenizer, expression parser, evaluator, legacy resolver, block
  processor, `resolveString`.

JavaScript numbers are modelled as integers (`Int`, plus a distinct NaN
marker where the control flow depends on it); all code paths proved about
here perform integral arithmetic only.  I/O (the upstream REST client, the
database) is modelled by explicit oracles/outcome streams, so that every
real run of the code corresponds to some choice of oracle.
-/

set_option maxRecDepth 4096
set_option maxHeartbeats 1000000

/-! ## Kernel-computable decimal printing

`toString` on `Int`/`Nat` does not reduce inside the kernel, so the model
uses its own decimal printer (same output) for `String(number)`. -/

def natDigitsRev : Nat → Nat → List Char
  | 0, _ => []
  | fuel + 1, n =>
      if n = 0 then []
      else Char.ofNat (48 + n % 10) :: natDigitsRev fuel (n / 10)

def natToStr (n : Nat) : String :=
  if n = 0 then "0" else ((natDigitsRev (n + 1) n).reverse).asString

def intToStr (i : Int) : String :=
  if i < 0 then "-" ++ natToStr i.natAbs else natToStr i.natAbs

/-! ## Kernel-computable string primitives

Several `String` library functions (`trim`, `toLower`, `startsWith`,
`splitOn`, …) do not reduce inside the kernel, so the model uses its own
structurally recursive equivalents (ASCII-faithful, which covers every
value the claims touch). -/

def sStartsWith (s pre : String) : Bool := pre.data.isPrefixOf s.data

def sEndsWith (s suf : String) : Bool := suf.data.isSuffixOf s.data

def charToLower (c : Char) : Char :=
  if 'A' ≤ c ∧ c ≤ 'Z' then Char.ofNat (c.toNat + 32) else c

def sToLower (s : String) : String := (s.data.map charToLower).asString

def digitsToNat (cs : List Char) : Nat :=
  cs.foldl (fun acc c => acc * 10 + (c.toNat - 48)) 0

/-- JavaScript `\s` for the ASCII range. -/
def isJsSpace (c : Char) : Bool :=
  c = ' ' || c = '\t' || c = '\n' || c = '\r' || c = Char.ofNat 11 || c = Char.ofNat 12

def sTrim (s : String) : String :=
  (((s.data.dropWhile isJsSpace).reverse.dropWhile isJsSpace).reverse).asString

def splitOnChar (sep : Char) : List Char → List (List Char)
  | [] => [[]]
  | c :: rest =>
      if c = sep then [] :: splitOnChar sep rest
      else
        match splitOnChar sep rest with
        | g :: gs => (c :: g) :: gs
        | [] => [[c]]

/-- JavaScript `s.split('.')`. -/
def sSplitDots (s : String) : List String :=
  (splitOnChar '.' s.data).map List.asString

def listContainsSub : List Char → List Char → Bool
  | pat, [] => pat.isPrefixOf []
  | pat, c :: rest => pat.isPrefixOf (c :: rest) || listContainsSub pat rest

/-! ## JavaScript primitive values

Domain for `condition-evaluator.ts` comparisons: attribute values are
primitives (`null`, `undefined`, booleans, numbers, strings). -/

inductive JsPrim where
  | pnull
  | pundef
  | pbool (b : Bool)
  | pnum (n : Int)
  | pstr (s : String)
  deriving DecidableEq, Repr

/-- JavaScript `String(x)` on a primitive. -/
def jsStringP : JsPrim → String
  | .pnull => "null"
  | .pundef => "undefined"
  | .pbool true => "true"
  | .pbool false => "false"
  | .pnum n => intToStr n
  | .pstr s => s

/-- JavaScript strict equality `===` restricted to primitives (numbers are
integral in this model, so the NaN case does not arise). -/
def jsStrictEq (a b : JsPrim) : Bool :=
  a == b

/-- JavaScript `x == null`, true exactly for `null` and `undefined`. -/
def isNullish : JsPrim → Bool
  | .pnull => true
  | .pundef => true
  | _ => false

/-- JavaScript `ToNumber` on a string: leading/trailing whitespace is
ignored, the empty string converts to `0`, optionally signed decimal digit
strings convert to the corresponding integer, anything else is NaN
(`none`).  Fractional and exotic numeric literals are outside the integral
model. -/
def strToNumber (s : String) : Option Int :=
  let t := sTrim s
  if t = "" then some 0
  else
    let (sign, digits) :=
      if sStartsWith t "-" then ((-1 : Int), t.drop 1)
      else if sStartsWith t "+" then ((1 : Int), t.drop 1)
      else ((1 : Int), t)
    if digits ≠ "" ∧ digits.data.all Char.isDigit then
      some (sign * (digitsToNat digits.data))
    else none

/-- JavaScript `ToNumber` on a primitive (`none` is NaN). -/
def toNumberP : JsPrim → Option Int
  | .pnull => some 0
  | .pundef => none
  | .pbool true => some 1
  | .pbool false => some 0
  | .pnum n => some n
  | .pstr s => strToNumber s

/-- JavaScript abstract (loose) equality `a == b` restricted to primitives:
same-type comparisons are strict, `null == undefined`, booleans coerce to
numbers, and number/string comparisons convert the string to a number. -/
def jsLooseEq : JsPrim → JsPrim → Bool
  | .pnull, .pnull => true
  | .pnull, .pundef => true
  | .pundef, .pnull => true
  | .pundef, .pundef => true
  | .pnull, _ => false
  | .pundef, _ => false
  | _, .pnull => false
  | _, .pundef => false
  | .pnum a, .pnum b => a == b
  | .pstr a, .pstr b => a == b
  | .pbool a, .pbool b => a == b
  | .pnum a, .pstr s => (strToNumber s).elim false (fun b => a == b)
  | .pstr s, .pnum b => (strToNumber s).elim false (fun a => a == b)
  | .pbool a, .pnum b => (if a then (1 : Int) else 0) == b
  | .pnum a, .pbool b => a == (if b then (1 : Int) else 0)
  | .pbool a, .pstr s => (strToNumber s).elim false (fun b => (if a then (1 : Int) else 0) == b)
  | .pstr s, .pbool b => (strToNumber s).elim false (fun a => a == (if b then (1 : Int) else 0))

/-! ## Condition evaluator (`condition-evaluator.ts`) -/

/-- `ConditionEvaluator.looseEquals` (condition-evaluator.ts:166-170):
```
if (a === b) return true;
if (a == null && b == null) return true;
return String(a).toLowerCase() === String(b).toLowerCase();
``` -/
def looseEquals (a b : JsPrim) : Bool :=
  if jsStrictEq a b then true
  else if isNullish a && isNullish b then true
  else sToLower (jsStringP a) == sToLower (jsStringP b)

/-- JavaScript `x || ''` as used in `compareValue`: falsy primitives
(`null`, `undefined`, `false`, `0`, `""`) are replaced by `""`. -/
def jsOrEmptyString : JsPrim → String
  | .pnull => ""
  | .pundef => ""
  | .pbool false => ""
  | .pnum 0 => ""
  | .pstr "" => ""
  | v => jsStringP v

/-- `ConditionEvaluator.compareValue` (condition-evaluator.ts:113-164),
restricted to the operators whose semantics stay inside the primitive
value domain (the numeric, array-membership, changed_to/changed_from and
regex operators are not exercised by any claim and are omitted; the
`default` arm returning `false` is kept). -/
def compareValue (operator : String) (currentValue targetValue : JsPrim) : Bool :=
  match operator with
  | "equals" => looseEquals currentValue targetValue
  | "not_equals" => !looseEquals currentValue targetValue
  | "contains" =>
      listContainsSub (sToLower (jsOrEmptyString targetValue)).data
        (sToLower (jsOrEmptyString currentValue)).data
  | "not_contains" =>
      !(listContainsSub (sToLower (jsOrEmptyString targetValue)).data
          (sToLower (jsOrEmptyString currentValue)).data)
  | "starts_with" =>
      sStartsWith (sToLower (jsOrEmptyString currentValue)) (sToLower (jsOrEmptyString targetValue))
  | "ends_with" =>
      sEndsWith (sToLower (jsOrEmptyString currentValue)) (sToLower (jsOrEmptyString targetValue))
  | "is_null" => isNullish currentValue || currentValue == .pstr ""
  | "is_not_null" => !(isNullish currentValue || currentValue == .pstr "")
  | _ => false

/-- The specification's formula for `equals` (spec §4.5 / §9 "Loose
equality"): `a == b || String(a).toLowerCase() == String(b).toLowerCase()`
with `==` being JavaScript loose equality. -/
def specEqualsFormula (a b : JsPrim) : Bool :=
  jsLooseEq a b || sToLower (jsStringP a) == sToLower (jsStringP b)

/-! ## Concurrency gate (`executor.ts`)

`executeAutomation` (executor.ts:231-240), `drainQueue` (242-248) and the
enter/exit bookkeeping of `runExecution` (251, 297-298, 313-314) form a
counter-plus-FIFO-queue discipline.  JavaScript runs these sections
without interleaving (the counter check, increment and queue operations
happen between `await` points), so the behaviour is the transition system
below: an `arrive` event is `executeAutomation` being called, a `complete`
event is a `runExecution` finishing (decrement then `drainQueue`).

`admittedLog` records, in order, the ids dequeued by `drainQueue`;
`enqueuedLog` records, in order, the ids that were queued. -/

structure GateState where
  active : Nat
  queue : List Nat
  admittedLog : List Nat
  enqueuedLog : List Nat
  deriving DecidableEq, Repr

def gateInit : GateState :=
  { active := 0, queue := [], admittedLog := [], enqueuedLog := [] }

inductive GateEvent where
  | arrive (id : Nat)
  | complete
  deriving DecidableEq, Repr

/-- `drainQueue` (executor.ts:242-248): while the queue is non-empty and a
slot is free, shift the head and start it (which increments `active`
synchronously at the top of `runExecution`). -/
def drainQueue (maxConcurrent : Nat) (s : GateState) : GateState :=
  match h : s.queue with
  | [] => s
  | id :: rest =>
      if s.active < maxConcurrent then
        drainQueue maxConcurrent
          { s with active := s.active + 1, queue := rest,
                   admittedLog := s.admittedLog ++ [id] }
      else s
termination_by s.queue.length
decreasing_by simp [h]

/-- One gate transition: `arrive` is `executeAutomation` (queue when
saturated, else run — which increments `active`); `complete` is the end of
`runExecution` (decrement, then drain). -/
def gateStep (maxConcurrent : Nat) (s : GateState) : GateEvent → GateState
  | .arrive id =>
      if s.active ≥ maxConcurrent then
        { s with queue := s.queue ++ [id], enqueuedLog := s.enqueuedLog ++ [id] }
      else
        { s with active := s.active + 1 }
  | .complete =>
      if s.active = 0 then s
      else drainQueue maxConcurrent { s with active := s.active - 1 }

def gateRun (maxConcurrent : Nat) (events : List GateEvent) : GateState :=
  events.foldl (gateStep maxConcurrent) gateInit

/-- `maxConcurrentExecutions: config?.maxConcurrentExecutions || 10`
(executor.ts:40): absent or zero (falsy) configuration defaults to 10. -/
def resolveMaxConcurrent (cfg : Option Nat) : Nat :=
  match cfg with
  | none => 10
  | some n => if n = 0 then 10 else n

/-! ## Polling tick (`trigger-manager.ts`) -/

/-- Per-rule trigger bookmark (`TriggerState` row): `lastCheckedAt` as an
epoch timestamp; `lastSeenData` is carried opaquely (its only field read
by the claims is `oqlCount`, modelled separately below). -/
structure TriggerStateM where
  lastCheckedAt : Nat
  deriving DecidableEq, Repr

/-- `pollOnce` (trigger-manager.ts:176-219): run the kind-specific poll;
if it throws, the exception propagates and the `lastCheckedAt := now`
update (lines 215-218) is never reached; otherwise `lastCheckedAt` is set
to the current time.  The kind-specific poll is abstracted as its outcome
(`Except`): every poll body is awaited directly inside `pollOnce`, so a
throw inside it is a throw of `pollOnce`. -/
def pollOnce (st : TriggerStateM) (pollOutcome : Except String Unit) (now : Nat) :
    Except String TriggerStateM :=
  match pollOutcome with
  | .error e => .error e
  | .ok _ => .ok { st with lastCheckedAt := now }

/-- The tick wrapper (trigger-manager.ts:164-171): `pollOnce` failures are
caught and logged, leaving the stored state unchanged. -/
def pollTick (st : TriggerStateM) (pollOutcome : Except String Unit) (now : Nat) :
    TriggerStateM :=
  match pollOnce st pollOutcome now with
  | .error _ => st
  | .ok st' => st'

/-- A sequence of ticks, each with a poll outcome and a wall-clock time. -/
def runTicks (st : TriggerStateM) (ticks : List (Except String Unit × Nat)) : TriggerStateM :=
  ticks.foldl (fun s t => pollTick s t.1 t.2) st

/-! ## `oql.match` polling (`trigger-manager.ts:372-415`) -/

/-- Outcome of one `pollOqlMatch` tick: whether the trigger event was
emitted, and the `oqlCount` stored in `lastSeenData` afterwards. -/
structure OqlTickResult where
  fired : Bool
  newOqlCount : Option Int
  deriving DecidableEq, Repr

/-- `pollOqlMatch` (trigger-manager.ts:372-415).  Inputs: the stored
`lastSeenData.oqlCount` (`none` when no count has been stored yet), the
outcome of `executeOql` (its `totalCount` on success), and whether the
downstream handler returns normally.  The whole body is wrapped in
`try/catch`, so an `executeOql` or handler throw ends the tick with the
stored count unchanged. -/
def pollOqlMatch (triggerOn : String) (storedOqlCount : Option Int)
    (oqlOutcome : Except String Int) (handlerOk : Bool) : OqlTickResult :=
  match oqlOutcome with
  | .error _ => { fired := false, newOqlCount := storedOqlCount }
  | .ok currentCount =>
      let prevCount : Int := storedOqlCount.getD (-1)
      let shouldTrigger : Bool :=
        match triggerOn with
        | "any_results" => currentCount > 0
        | "new_results" => currentCount > prevCount && prevCount ≥ 0
        | "count_change" => currentCount ≠ prevCount && prevCount ≥ 0
        | _ => false
      if shouldTrigger && !handlerOk then
        { fired := true, newOqlCount := storedOqlCount }
      else
        { fired := shouldTrigger, newOqlCount := some currentCount }

/-! ## Trigger-event handling (`executor.ts:217-226`) -/

/-- The fields of a stored automation rule that `handleTriggerEvent`
inspects. -/
structure RuleRow where
  enabled : Bool
  deriving DecidableEq, Repr

/-- The observable effect of `executeAutomation` on the store: the list of
Execution records it created, and its returned/thrown outcome. -/
structure ExecEffect where
  createdRecords : List String
  outcome : Except String String

/-- `handleTriggerEvent` (executor.ts:217-226): look up the rule; if it is
missing or disabled, return immediately (no record, no event, no error);
otherwise run `executeAutomation`, catching and logging any error.  The
lookup result and the behaviour of `executeAutomation` are oracle
inputs.  The result is the list of Execution records created together
with the (never-failing) outcome seen by the caller. -/
def handleTriggerEvent (lookup : Option RuleRow) (exec : RuleRow → ExecEffect) :
    List String × Except String Unit :=
  match lookup with
  | none => ([], .ok ())
  | some automation =>
      if !automation.enabled then ([], .ok ())
      else
        let eff := exec automation
        (eff.createdRecords, .ok ())

/-! ## Component walk (`executor.ts:323-559`)

The component tree and the recursive walk `executeComponents`.  All I/O
outcomes (an action failing or throwing, a condition evaluating false or
throwing, the items a branch resolves, an if/else condition) are drawn
from an outcome stream `ExecEnv` indexed by a step counter that advances
once per component visit, so every concrete run of the real code
corresponds to some `ExecEnv`. -/

inductive CStatus where
  | success
  | failed
  | skipped
  deriving DecidableEq, Repr

/-- `ComponentResult` (types): id, componentType tag, status, children
(present and possibly empty for branch/if_else results; `[]` stands for
an absent or empty `children` field — `hasFailure` and the leaf search
treat the two alike).  The diagnostic fields (result payload, error text,
duration) play no role in any claim and are omitted. -/
inductive ComponentResult where
  | mk (componentId : String) (componentType : String) (status : CStatus)
       (children : List ComponentResult)
  deriving Repr

def ComponentResult.status : ComponentResult → CStatus
  | .mk _ _ st _ => st

def ComponentResult.children : ComponentResult → List ComponentResult
  | .mk _ _ _ ch => ch

def ComponentResult.componentType : ComponentResult → String
  | .mk _ ty _ _ => ty

/-- `AutomationExecutor.hasFailure` (executor.ts:573-579): a result set has
a failure if some result has status `failed` or, recursively, some result
has children with a failure. -/
def hasFailure : List ComponentResult → Bool
  | [] => false
  | .mk _ _ st ch :: rs => st == .failed || hasFailure ch || hasFailure rs

/-- The specification's notion (spec §4.2 step 5, §8): some *leaf* of the
result tree — a node with no children — has status `failed`. -/
def anyFailedLeaf : List ComponentResult → Bool
  | [] => false
  | .mk _ _ st [] :: rs => st == .failed || anyFailedLeaf rs
  | .mk _ _ _ (c :: cs) :: rs => anyFailedLeaf (c :: cs) || anyFailedLeaf rs

/-- Shape invariant of result trees produced by the walk: every node that
carries children has status `failed` exactly when its children contain a
failure (this is how `executeBranchComponent` and
`executeIfElseComponent` compute their status). -/
def wfResults : List ComponentResult → Bool
  | [] => true
  | .mk _ _ st ch :: rs =>
      (ch.isEmpty || ((st == .failed) == hasFailure ch)) && wfResults ch && wfResults rs

/-- `runExecution` (executor.ts:281-282): overall status from the walk's
results. -/
def runStatus (results : List ComponentResult) : String :=
  if hasFailure results then "FAILED" else "SUCCESS"

/-- Program tree (`RuleComponent`): the four component kinds. -/
inductive Component where
  | action (id : String) (continueOnError : Bool)
  | condition (id : String)
  | branch (id : String) (components : List Component)
  | ifElse (id : String) (thenComponents elseComponents : List Component)
  deriving Repr

/-- Outcome of evaluating a condition component: passed (`success`), not
passed (`skipped`), or the evaluator threw (caught by the walk,
`failed`). -/
inductive CondOutcome where
  | passed
  | notPassed
  | threw
  deriving DecidableEq, Repr

/-- Outcome of resolving a branch's items: a throw (caught by the walk),
the `related_items`-without-source early return (`skipped`), the
`lookup_items`-without-query early return (`failed`), or an iteration
over `n` resolved items. -/
inductive BranchOutcome where
  | threw
  | noSourceItem
  | noQuery
  | iterate (n : Nat)
  deriving DecidableEq, Repr

/-- Outcome of an if/else condition evaluation: a throw (caught by the
walk) or a boolean. -/
inductive IfOutcome where
  | threw
  | cond (passed : Bool)
  deriving DecidableEq, Repr

/-- Oracle streams for every effectful outcome the walk can observe,
indexed by visit number. -/
structure ExecEnv where
  actionFailed : Nat → Bool
  conditionOutcome : Nat → CondOutcome
  branchOutcome : Nat → BranchOutcome
  ifOutcome : Nat → IfOutcome

mutual
/-- `executeComponents` (executor.ts:323-383): walk the components in
order; a condition whose result is `skipped` stops the chain; an action
whose result is `failed` stops the chain unless `continueOnError`. -/
def executeComponents (env : ExecEnv) (components : List Component) (t : Nat) :
    List ComponentResult × Nat :=
  match components with
  | [] => ([], t)
  | comp :: rest =>
    let (result, t') := executeOne env comp t
    match comp with
    | .condition _ =>
        if result.status == .skipped then ([result], t')
        else
          let (rs, t'') := executeComponents env rest t'
          (result :: rs, t'')
    | .action _ continueOnError =>
        if result.status == .failed && !continueOnError then ([result], t')
        else
          let (rs, t'') := executeComponents env rest t'
          (result :: rs, t'')
    | _ =>
        let (rs, t'') := executeComponents env rest t'
        (result :: rs, t'')
termination_by (sizeOf components, 0)

/-- One component visit: `executeActionComponent` /
`executeConditionComponent` / `executeBranchComponent` /
`executeIfElseComponent` (executor.ts:385-559), with the surrounding
`try/catch` of the walk folded in (a throw yields a childless `failed`
result). -/
def executeOne (env : ExecEnv) (comp : Component) (t : Nat) : ComponentResult × Nat :=
  match comp with
  | .action id _ =>
      (.mk id "action" (if env.actionFailed t then .failed else .success) [], t + 1)
  | .condition id =>
      (match env.conditionOutcome t with
       | .passed => .mk id "condition" .success []
       | .notPassed => .mk id "condition" .skipped []
       | .threw => .mk id "condition" .failed [], t + 1)
  | .branch id sub =>
      (match env.branchOutcome t with
       | .threw => (.mk id "branch" .failed [], t + 1)
       | .noSourceItem => (.mk id "branch" .skipped [], t + 1)
       | .noQuery => (.mk id "branch" .failed [], t + 1)
       | .iterate n =>
           let (children, t') := executeIterations env sub n (t + 1)
           (.mk id "branch" (if hasFailure children then .failed else .success) children, t'))
  | .ifElse id thenComponents elseComponents =>
      match env.ifOutcome t with
      | .threw => (.mk id "if_else" .failed [], t + 1)
      | .cond true =>
          let (children, t') := executeComponents env thenComponents (t + 1)
          (.mk id "if_else" (if hasFailure children then .failed else .success) children, t')
      | .cond false =>
          if elseComponents.isEmpty then (.mk id "if_else" .success [], t + 1)
          else
            let (children, t') := executeComponents env elseComponents (t + 1)
            (.mk id "if_else" (if hasFailure children then .failed else .success) children, t')
termination_by (sizeOf comp, 0)

/-- The per-item iteration of `executeBranchComponent`
(executor.ts:500-514): run the branch's components once per item,
flattening all iteration results into one `children` list. -/
def executeIterations (env : ExecEnv) (sub : List Component) (n : Nat) (t : Nat) :
    List ComponentResult × Nat :=
  match n with
  | 0 => ([], t)
  | m + 1 =>
      let (rs, t') := executeComponents env sub t
      let (rest, t'') := executeIterations env sub m t'
      (rs ++ rest, t'')
termination_by (sizeOf sub, n)
end

/-! ## JavaScript values for the template engine

The template resolver and smart-value engine pass around arbitrary JSON-ish
values.  Numbers are integral (`vNum`) with a distinct NaN marker (`vNaN`)
for the coercion paths whose control flow observes NaN.  `Date` objects
and object reference identity are outside the model (no proved input
constructs them). -/

inductive JsVal where
  | vNull
  | vUndef
  | vNaN
  | vBool (b : Bool)
  | vNum (n : Int)
  | vStr (s : String)
  | vArr (elems : List JsVal)
  | vObj (fields : List (String × JsVal))
  deriving Repr

open JsVal

mutual
/-- JavaScript `String(x)` (array elements stringify recursively, with
`null`/`undefined` elements becoming the empty string, joined by commas —
`Array.prototype.toString`). -/
def jsString : JsVal → String
  | vNull => "null"
  | vUndef => "undefined"
  | vNaN => "NaN"
  | vBool true => "true"
  | vBool false => "false"
  | vNum n => intToStr n
  | vStr s => s
  | vArr elems => String.intercalate "," (jsStringArrList elems)
  | vObj _ => "[object Object]"

def jsStringArrList : List JsVal → List String
  | [] => []
  | vNull :: rest => "" :: jsStringArrList rest
  | vUndef :: rest => "" :: jsStringArrList rest
  | v :: rest => jsString v :: jsStringArrList rest
end

/-- JavaScript truthiness (`Boolean(x)`): `null`, `undefined`, `NaN`,
`false`, `0` and `""` are falsy; every object and array (even empty) is
truthy. -/
def jsTruthy : JsVal → Bool
  | vNull => false
  | vUndef => false
  | vNaN => false
  | vBool b => b
  | vNum n => n ≠ 0
  | vStr s => s ≠ ""
  | vArr _ => true
  | vObj _ => true

/-- JavaScript `a || b`. -/
def jsOr (a b : JsVal) : JsVal :=
  if jsTruthy a then a else b

/-- Property read `obj[key]` on an object (missing key, or a non-object
receiver, yields `undefined`).  Array element access by a decimal-string
key is included (JavaScript coerces the key); string character/`length`
properties are outside the model (no proved input reads them). -/
def objGet (v : JsVal) (key : String) : JsVal :=
  match v with
  | vObj fields =>
      match fields.find? (fun f => f.1 == key) with
      | some f => f.2
      | none => vUndef
  | vArr elems =>
      if key ≠ "" ∧ key.data.all Char.isDigit then
        match elems[digitsToNat key.data]? with
        | some e => e
        | none => vUndef
      else vUndef
  | _ => vUndef

/-- Object write with spread semantics: an existing key is overwritten in
place, a new key is appended. -/
def objSet (fields : List (String × JsVal)) (key : String) (value : JsVal) :
    List (String × JsVal) :=
  if fields.any (fun f => f.1 == key) then
    fields.map (fun f => if f.1 == key then (key, value) else f)
  else fields ++ [(key, value)]

/-- JavaScript `ToNumber` (`none` is NaN): arrays and objects coerce via
their string form. -/
def jsToNumber : JsVal → Option Int
  | vNull => some 0
  | vUndef => none
  | vNaN => none
  | vBool true => some 1
  | vBool false => some 0
  | vNum n => some n
  | vStr s => strToNumber s
  | vArr elems => strToNumber (jsString (vArr elems))
  | vObj _ => none

/-- View of a non-NaN value as a primitive for loose-equality purposes
(arrays and objects compare through their primitive string form). -/
def toPrimView : JsVal → JsPrim
  | vNull => .pnull
  | vUndef => .pundef
  | vNaN => .pstr "NaN"
  | vBool b => .pbool b
  | vNum n => .pnum n
  | vStr s => .pstr s
  | vArr elems => .pstr (jsString (vArr elems))
  | vObj fields => .pstr (jsString (vObj fields))

/-- JavaScript loose equality `==` on engine values.  NaN equals nothing;
two objects/arrays compare by reference identity, which the model renders
as `false` (no proved input compares two objects); everything else follows
the primitive algorithm after `ToPrimitive` on objects/arrays. -/
def jsLooseEqV (a b : JsVal) : Bool :=
  match a, b with
  | vNaN, _ => false
  | _, vNaN => false
  | vObj _, vObj _ => false
  | vObj _, vArr _ => false
  | vArr _, vObj _ => false
  | vArr _, vArr _ => false
  | x, y => jsLooseEq (toPrimView x) (toPrimView y)

/-- Number literal token to value: `parseFloat` restricted to the integral
model (optionally signed decimal digits; a fractional literal maps to the
NaN marker and is outside the model — no proved input contains one). -/
def jsParseFloat (s : String) : JsVal :=
  match strToNumber s with
  | some n => vNum n
  | none => vNaN

/-- Minimal JSON escaping for `JSON.stringify` on strings (sufficient for
the value domain exercised here). -/
def jsonEscape (s : String) : String :=
  String.join (s.data.map fun c =>
    if c = '\\' then "\\\\"
    else if c = '"' then "\\\""
    else String.singleton c)

mutual
/-- `JSON.stringify` (fragment): `undefined` and NaN become `null` inside
arrays; `undefined`-valued object fields are dropped. -/
def jsonStringify : JsVal → String
  | vNull => "null"
  | vUndef => "null"
  | vNaN => "null"
  | vBool true => "true"
  | vBool false => "false"
  | vNum n => intToStr n
  | vStr s => "\"" ++ jsonEscape s ++ "\""
  | vArr elems => "[" ++ String.intercalate "," (jsonStringifyList elems) ++ "]"
  | vObj fields =>
      "\x7b" ++ String.intercalate "," (jsonStringifyFields fields) ++ "\x7d"

def jsonStringifyList : List JsVal → List String
  | [] => []
  | v :: rest => jsonStringify v :: jsonStringifyList rest

def jsonStringifyFields : List (String × JsVal) → List String
  | [] => []
  | (_, vUndef) :: rest => jsonStringifyFields rest
  | (k, v) :: rest => ("\"" ++ jsonEscape k ++ "\":" ++ jsonStringify v) :: jsonStringifyFields rest
end

/-- `TemplateResolver.stringify` (template-resolver.ts:321-327) and the
identical `BlockProcessor.stringify` (block-processor:431-437):
`null`/`undefined` become `""`, strings pass through, numbers and booleans
stringify, objects and arrays JSON-stringify (the `Date` arm is outside
the model). -/
def stringifyV : JsVal → String
  | vNull => ""
  | vUndef => ""
  | vNaN => "NaN"
  | vBool b => if b then "true" else "false"
  | vNum n => intToStr n
  | vStr s => s
  | vArr elems => jsonStringify (vArr elems)
  | vObj fields => jsonStringify (vObj fields)

/-! ## Smart-value tokenizer (`expression-parser.ts:17-185`) -/

inductive TokType where
  | IDENTIFIER
  | DOT
  | LPAREN
  | RPAREN
  | LBRACKET
  | RBRACKET
  | COMMA
  | PIPE
  | STRING
  | NUMBER
  | BOOLEAN
  | NULL
  | OPERATOR
  | COLON
  | EOF
  deriving DecidableEq, Repr

structure Token where
  ttype : TokType
  value : String
  deriving DecidableEq, Repr

/-- The single-quote character (the tokenizer accepts both quote kinds). -/
def squoteChar : Char := Char.ofNat 39

/-- `[a-zA-Z_@]` (expression-parser.ts:183). -/
def isIdentStartCh (c : Char) : Bool :=
  (('a' ≤ c && c ≤ 'z') || ('A' ≤ c && c ≤ 'Z') || c = '_' || c = '@')

/-- `[a-zA-Z0-9_@]` (expression-parser.ts:184). -/
def isIdentCh (c : Char) : Bool :=
  isIdentStartCh c || c.isDigit

/-- `Tokenizer.readString` (expression-parser.ts:83-105): consume up to the
closing quote, a backslash escaping (copying verbatim) the next
character; `none` when unterminated. -/
def readStringLit (quote : Char) : List Char → Option (List Char × List Char)
  | [] => none
  | '\\' :: next :: rest =>
      (readStringLit quote rest).map (fun p => (next :: p.1, p.2))
  | c :: rest =>
      if c = quote then some ([], rest)
      else (readStringLit quote rest).map (fun p => (c :: p.1, p.2))

/-- `Tokenizer.readNumber` (expression-parser.ts:107-129): optional minus,
digits, at most one dot that must be followed by a digit. -/
def readNumber (cs : List Char) : String × List Char :=
  let (sign, cs1) :=
    match cs with
    | '-' :: rest => ("-", rest)
    | _ => ("", cs)
  let (intPart, cs2) := cs1.span Char.isDigit
  match cs2 with
  | '.' :: d :: rest =>
      if d.isDigit then
        let (fracPart, cs3) := (d :: rest).span Char.isDigit
        (sign ++ intPart.asString ++ "." ++ fracPart.asString, cs3)
      else (sign ++ intPart.asString, cs2)
  | _ => (sign ++ intPart.asString, cs2)

/-- `OPERATOR_CHARS` (expression-parser.ts:14). -/
def isOperatorCh (c : Char) : Bool :=
  c = '+' || c = '-' || c = '*' || c = '/' || c = '=' || c = '!' || c = '>' || c = '<'

/-- `Tokenizer.shouldNegateBeNumber` (expression-parser.ts:173-180); the
accumulator is kept in reverse, so the previously produced token is its
head. -/
def shouldNegate (accRev : List Token) : Bool :=
  match accRev with
  | [] => true
  | t :: _ =>
      t.ttype = .OPERATOR || t.ttype = .PIPE || t.ttype = .LPAREN ||
      t.ttype = .LBRACKET || t.ttype = .COMMA

/-- `Tokenizer.tokenize` (expression-parser.ts:26-75), fuel-driven (the
fuel given by the wrapper always suffices: every step consumes at least
one character). -/
def tokenizeGo : Nat → List Token → List Char → Except String (List Token)
  | 0, _, _ => .error "tokenizer fuel exhausted"
  | fuel + 1, accRev, cs =>
    match cs with
    | [] => .ok ((⟨.EOF, ""⟩ :: accRev).reverse)
    | c :: rest =>
      if isJsSpace c then tokenizeGo fuel accRev rest
      else if c = '"' || c = squoteChar then
        match readStringLit c rest with
        | some (v, r) => tokenizeGo fuel (⟨.STRING, v.asString⟩ :: accRev) r
        | none => .error "Unterminated string"
      else if c.isDigit ||
              (c = '-' && (match rest with | d :: _ => d.isDigit | [] => false)
                && shouldNegate accRev) then
        let (numStr, r) := readNumber cs
        tokenizeGo fuel (⟨.NUMBER, numStr⟩ :: accRev) r
      else if c = '.' then tokenizeGo fuel (⟨.DOT, "."⟩ :: accRev) rest
      else if c = '(' then tokenizeGo fuel (⟨.LPAREN, "("⟩ :: accRev) rest
      else if c = ')' then tokenizeGo fuel (⟨.RPAREN, ")"⟩ :: accRev) rest
      else if c = '[' then tokenizeGo fuel (⟨.LBRACKET, "["⟩ :: accRev) rest
      else if c = ']' then tokenizeGo fuel (⟨.RBRACKET, "]"⟩ :: accRev) rest
      else if c = ',' then tokenizeGo fuel (⟨.COMMA, ","⟩ :: accRev) rest
      else if c = '|' then tokenizeGo fuel (⟨.PIPE, "|"⟩ :: accRev) rest
      else if c = ':' then tokenizeGo fuel (⟨.COLON, ":"⟩ :: accRev) rest
      else if isOperatorCh c then
        match rest with
        | b :: rest2 =>
            let two := String.mk [c, b]
            if two = "==" || two = "!=" || two = ">=" || two = "<=" then
              tokenizeGo fuel (⟨.OPERATOR, two⟩ :: accRev) rest2
            else tokenizeGo fuel (⟨.OPERATOR, String.singleton c⟩ :: accRev) rest
        | [] => tokenizeGo fuel (⟨.OPERATOR, String.singleton c⟩ :: accRev) rest
      else if isIdentStartCh c then
        let (identChars, r) := (c :: rest).span isIdentCh
        let name := identChars.asString
        if name = "true" || name = "false" then
          tokenizeGo fuel (⟨.BOOLEAN, name⟩ :: accRev) r
        else if name = "null" then
          tokenizeGo fuel (⟨.NULL, name⟩ :: accRev) r
        else if name = "oql" && (match r with | ':' :: _ => true | _ => false) then
          let query := sTrim ((r.drop 1).asString)
          .ok ((⟨.EOF, ""⟩ :: ⟨.STRING, query⟩ :: ⟨.COLON, ":"⟩ ::
                ⟨.IDENTIFIER, "oql"⟩ :: accRev).reverse)
        else tokenizeGo fuel (⟨.IDENTIFIER, name⟩ :: accRev) r
      else .error ("Unexpected character " ++ String.singleton c)

def tokenize (input : String) : Except String (List Token) :=
  tokenizeGo (input.length + 1) [] input.data

/-! ## Smart-value AST and parser (`expression-parser.ts:189-409`) -/

mutual
inductive AST where
  | path (segments : List String)
  | chain (base : AST) (operations : List ChainOp)
  | funcCall (name : String) (args : List AST)
  | lit (value : JsVal)
  | pipe (left right : AST)
  | binary (operator : String) (left right : AST)
  | oqlQuery (query : String)
  deriving Repr

inductive ChainOp where
  | funcCall (name : String) (args : List AST)
  | propertyAccess (name : String)
  | indexAccess (index : AST)
  deriving Repr
end

def curTok (ts : List Token) : Token := ts.headD ⟨.EOF, ""⟩

def peekTok (ts : List Token) (off : Nat) : Token := ts.getD off ⟨.EOF, ""⟩

def expectTok (tt : TokType) (ts : List Token) : Except String (List Token) :=
  if (curTok ts).ttype = tt then .ok (ts.drop 1)
  else .error ("Expected token " ++ (curTok ts).value)

mutual
/-- `parsePipe` (expression-parser.ts:235-245): `additive ('|' additive)?`
— note a single optional pipe, not a loop. -/
def parsePipe : Nat → List Token → Except String (AST × List Token)
  | 0, _ => .error "parser fuel exhausted"
  | fuel + 1, ts => do
      let (left, ts1) ← parseAdditive fuel ts
      if (curTok ts1).ttype = .PIPE then
        let (right, ts2) ← parseAdditive fuel (ts1.drop 1)
        .ok (.pipe left right, ts2)
      else .ok (left, ts1)

/-- `parseAdditive` (expression-parser.ts:248-260): left-associative loop
over `+ - * /` with `parseComparison` operands (so the comparison
operators bind tighter than the arithmetic ones). -/
def parseAdditive : Nat → List Token → Except String (AST × List Token)
  | 0, _ => .error "parser fuel exhausted"
  | fuel + 1, ts => do
      let (left, ts1) ← parseComparison fuel ts
      parseAdditiveLoop fuel left ts1

def parseAdditiveLoop : Nat → AST → List Token → Except String (AST × List Token)
  | 0, _, _ => .error "parser fuel exhausted"
  | fuel + 1, left, ts =>
      let t := curTok ts
      if t.ttype = .OPERATOR &&
          (t.value = "+" || t.value = "-" || t.value = "*" || t.value = "/") then do
        let (right, ts1) ← parseComparison fuel (ts.drop 1)
        parseAdditiveLoop fuel (.binary t.value left right) ts1
      else .ok (left, ts)

/-- `parseComparison` (expression-parser.ts:263-274): a single optional
`== != > < >= <=` over `parseUnary` operands. -/
def parseComparison : Nat → List Token → Except String (AST × List Token)
  | 0, _ => .error "parser fuel exhausted"
  | fuel + 1, ts => do
      let (left, ts1) ← parseUnary fuel ts
      let t := curTok ts1
      if t.ttype = .OPERATOR &&
          (t.value = "==" || t.value = "!=" || t.value = ">" || t.value = "<" ||
           t.value = ">=" || t.value = "<=") then do
        let (right, ts2) ← parseUnary fuel (ts1.drop 1)
        .ok (.binary t.value left right, ts2)
      else .ok (left, ts1)

/-- `parseUnary` (expression-parser.ts:277-317): primary followed by chain
operations. -/
def parseUnary : Nat → List Token → Except String (AST × List Token)
  | 0, _ => .error "parser fuel exhausted"
  | fuel + 1, ts => do
      let (base, ts1) ← parsePrimary fuel ts
      let (ops, ts2) ← parseChainOps fuel ts1
      if ops.isEmpty then .ok (base, ts2)
      else .ok (.chain base ops, ts2)

def parseChainOps : Nat → List Token → Except String (List ChainOp × List Token)
  | 0, _ => .error "parser fuel exhausted"
  | fuel + 1, ts =>
      if (curTok ts).ttype = .DOT && (peekTok ts 1).ttype = .IDENTIFIER then
        let name := (peekTok ts 1).value
        let ts1 := ts.drop 2
        if (curTok ts1).ttype = .LPAREN then do
          let (args, ts2) ← parseArgs fuel (ts1.drop 1)
          let ts3 ← expectTok .RPAREN ts2
          let (ops, ts4) ← parseChainOps fuel ts3
          .ok (.funcCall name args :: ops, ts4)
        else do
          let (ops, ts2) ← parseChainOps fuel ts1
          .ok (.propertyAccess name :: ops, ts2)
      else if (curTok ts).ttype = .LBRACKET then do
        let (index, ts1) ← parsePipe fuel (ts.drop 1)
        let ts2 ← expectTok .RBRACKET ts1
        let (ops, ts3) ← parseChainOps fuel ts2
        .ok (.indexAccess index :: ops, ts3)
      else .ok ([], ts)

/-- `parsePrimary` (expression-parser.ts:320-373). -/
def parsePrimary : Nat → List Token → Except String (AST × List Token)
  | 0, _ => .error "parser fuel exhausted"
  | fuel + 1, ts =>
      let tok := curTok ts
      match tok.ttype with
      | .STRING => .ok (.lit (vStr tok.value), ts.drop 1)
      | .NUMBER => .ok (.lit (jsParseFloat tok.value), ts.drop 1)
      | .BOOLEAN => .ok (.lit (vBool (tok.value = "true")), ts.drop 1)
      | .NULL => .ok (.lit vNull, ts.drop 1)
      | .LPAREN => do
          let (e, ts1) ← parsePipe fuel (ts.drop 1)
          let ts2 ← expectTok .RPAREN ts1
          .ok (e, ts2)
      | .IDENTIFIER =>
          if tok.value = "oql" && (peekTok ts 1).ttype = .COLON then
            if (peekTok ts 2).ttype = .STRING then
              .ok (.oqlQuery (peekTok ts 2).value, ts.drop 3)
            else .error "Expected STRING"
          else if (peekTok ts 1).ttype = .LPAREN then do
            let (args, ts1) ← parseArgs fuel (ts.drop 2)
            let ts2 ← expectTok .RPAREN ts1
            .ok (.funcCall tok.value args, ts2)
          else parsePathSegs fuel [tok.value] (ts.drop 1)
      | _ => .error ("Unexpected token " ++ tok.value)

/-- `parsePath` (expression-parser.ts:376-390): dotted identifiers,
stopping before an identifier that is followed by `(`. -/
def parsePathSegs : Nat → List String → List Token → Except String (AST × List Token)
  | 0, _, _ => .error "parser fuel exhausted"
  | fuel + 1, segs, ts =>
      if (curTok ts).ttype = .DOT && (peekTok ts 1).ttype = .IDENTIFIER &&
          (peekTok ts 2).ttype ≠ .LPAREN then
        parsePathSegs fuel (segs ++ [(peekTok ts 1).value]) (ts.drop 2)
      else .ok (.path segs, ts)

/-- `parseArgs` (expression-parser.ts:393-408). -/
def parseArgs : Nat → List Token → Except String (List AST × List Token)
  | 0, _ => .error "parser fuel exhausted"
  | fuel + 1, ts =>
      if (curTok ts).ttype = .RPAREN then .ok ([], ts)
      else do
        let (e, ts1) ← parsePipe fuel ts
        parseArgsLoop fuel [e] ts1

def parseArgsLoop : Nat → List AST → List Token → Except String (List AST × List Token)
  | 0, _, _ => .error "parser fuel exhausted"
  | fuel + 1, args, ts =>
      if (curTok ts).ttype = .COMMA then do
        let (e, ts1) ← parsePipe fuel (ts.drop 1)
        parseArgsLoop fuel (args ++ [e]) ts1
      else .ok (args, ts)
end

/-- `ExpressionParser.parse` (expression-parser.ts:193-205): tokenize,
parse one expression, require EOF.  The fuel bounds recursion depth and is
generous enough for every input the theorems evaluate. -/
def parse (input : String) : Except String AST := do
  let toks ← tokenize input
  let fuel := 8 * (toks.length + 1) + 8
  let (result, ts1) ← parsePipe fuel toks
  if (curTok ts1).ttype = .EOF then .ok result
  else .error ("Unexpected token " ++ (curTok ts1).value)

/-! ## Execution context and legacy resolver (`template-resolver.ts`) -/

def jsFalsy (v : JsVal) : Bool := !jsTruthy v

def isNullishV : JsVal → Bool
  | vNull => true
  | vUndef => true
  | _ => false

/-- The regex `^(.+)\[(\d+)\]$` of `navigatePath`
(template-resolver.ts:303): a greedy name part followed by a final
bracketed decimal index. -/
def splitArrayIndexSeg (seg : String) : Option (String × Nat) :=
  let cs := seg.data
  match cs.reverse with
  | ']' :: revRest =>
      let revDigits := revRest.takeWhile Char.isDigit
      let afterDigits := revRest.drop revDigits.length
      match afterDigits with
      | '[' :: revName =>
          if revDigits ≠ [] ∧ revName ≠ [] then
            some ((revName.reverse).asString, digitsToNat revDigits.reverse)
          else none
      | _ => none
  | _ => none

/-- `TemplateResolver.navigatePath` (template-resolver.ts:289-316): dotted
navigation with the `attributes` → `attributeValues` rewrite and
`name[idx]` array segments.  A falsy root or empty path returns the root
unchanged; a `null`/`undefined` intermediate yields `undefined`. -/
def navGo : JsVal → List String → JsVal
  | current, [] => current
  | current, seg :: rest =>
      if isNullishV current then vUndef
      else if seg = "attributes" && jsTruthy (objGet current "attributeValues") then
        navGo (objGet current "attributeValues") rest
      else
        match splitArrayIndexSeg seg with
        | some (name, idx) =>
            let c1 := objGet current name
            let c2 :=
              match c1 with
              | vArr elems => (elems[idx]?).getD vUndef
              | _ => c1
            navGo c2 rest
        | none => navGo (objGet current seg) rest

def navigatePath (obj : JsVal) (path : List String) : JsVal :=
  if jsFalsy obj || path.isEmpty then obj
  else navGo obj path

/-- `ExecutionContext` together with oracles for the I/O the resolver can
perform: `oqlResolve` stands for `TemplateResolver.resolveOql` (inline
`oql:` queries — it can throw), `lookupItemByKey` for
`TemplateResolver.lookupItem` (it catches internally and returns `null`
on failure), and `envNow`/`envToday` for the `env.NOW`/`env.TODAY`
wall-clock reads.  `trigger` is the TriggerEvent as a JavaScript
object. -/
structure CtxM where
  automationId : String
  automationName : String
  workspaceId : String
  trigger : JsVal
  componentResults : JsVal
  variablesMap : JsVal
  createdItems : JsVal
  currentItem : JsVal
  startedAt : String
  oqlResolve : String → Except String JsVal
  lookupItemByKey : String → JsVal
  envNow : String
  envToday : String

/-- The ExecutionContext viewed as the JavaScript object that
`resolveContextPath` navigates. -/
def ctxObject (ctx : CtxM) : JsVal :=
  vObj [("automationId", vStr ctx.automationId),
        ("automationName", vStr ctx.automationName),
        ("workspaceId", vStr ctx.workspaceId),
        ("trigger", ctx.trigger),
        ("componentResults", ctx.componentResults),
        ("variables", ctx.variablesMap),
        ("createdItems", ctx.createdItems),
        ("currentItem", ctx.currentItem),
        ("startedAt", vStr ctx.startedAt)]

/-- `resolveTriggerPath` (template-resolver.ts:163-189). -/
def resolveTriggerPath (ctx : CtxM) (path : List String) : JsVal :=
  let trigger := ctx.trigger
  match path with
  | [] => trigger
  | segment :: rest =>
    match segment with
    | "item" => navigatePath (objGet trigger "item") rest
    | "previous" => navigatePath (objGet trigger "previousValues") rest
    | "user" =>
        navigatePath
          (jsOr (objGet (objGet trigger "item") "createdBy")
                (objGet (objGet trigger "item") "updatedBy")) rest
    | "timestamp" => objGet trigger "timestamp"
    | "type" => objGet trigger "type"
    | "manualParameters" => navigatePath (objGet trigger "manualParameters") rest
    | "webhookPayload" => navigatePath (objGet trigger "webhookPayload") rest
    | "oqlResults" => objGet trigger "oqlResults"
    | _ => navigatePath trigger (segment :: rest)

/-- `resolveEnv` (template-resolver.ts:191-200). -/
def resolveEnv (ctx : CtxM) (key : Option String) : JsVal :=
  match key with
  | some "NOW" => vStr ctx.envNow
  | some "TODAY" => vStr ctx.envToday
  | _ => vUndef

/-- `resolveContextPath` (template-resolver.ts:202-207). -/
def resolveContextPath (ctx : CtxM) (path : List String) : JsVal :=
  match path with
  | "variables" :: rest => navigatePath ctx.variablesMap rest
  | _ => navigatePath (ctxObject ctx) path

/-- `resolveCurrentItemPath` (template-resolver.ts:209-215). -/
def resolveCurrentItemPath (ctx : CtxM) (path : List String) : JsVal :=
  let item := jsOr ctx.currentItem (objGet ctx.trigger "item")
  if jsFalsy item then vUndef
  else if path.isEmpty then item
  else navigatePath item path

/-- The regex `^action\[(\d+)\]$` of `resolveActionResult`
(template-resolver.ts:223). -/
def actionIndexSeg (seg : String) : Option Nat :=
  if sStartsWith seg "action[" ∧ sEndsWith seg "]" then
    let middle := (seg.drop 7).dropRight 1
    if middle ≠ "" ∧ middle.data.all Char.isDigit then some (digitsToNat middle.data) else none
  else none

/-- `resolveActionResult` (template-resolver.ts:217-231); the full split
path (starting with the `action...` segment) is passed in, as in the
source. -/
def resolveActionResult (ctx : CtxM) (path : List String) : JsVal :=
  match path with
  | ["action"] => ctx.componentResults
  | seg :: rest =>
      match actionIndexSeg seg with
      | some idx =>
          let componentResult :=
            match ctx.componentResults with
            | vArr elems => (elems[idx]?).getD vUndef
            | _ => vUndef
          if jsFalsy componentResult then vUndef
          else navigatePath componentResult rest
      | none => vUndef
  | [] => vUndef

/-- `resolveExpressionLegacy` (template-resolver.ts:127-161): `oql:`
queries go to the (throwing) OQL resolver; otherwise dotted navigation
from a known root; an unknown root returns the unresolved placeholder
text. -/
def resolveExpressionLegacy (ctx : CtxM) (expression : String) : Except String JsVal :=
  if sStartsWith expression "oql:" then
    ctx.oqlResolve (sTrim (expression.drop 4))
  else
    let path := sSplitDots expression
    match path with
    | root :: rest =>
      match root with
      | "trigger" => .ok (resolveTriggerPath ctx rest)
      | "item" => .ok (resolveCurrentItemPath ctx rest)
      | "currentItem" => .ok (resolveCurrentItemPath ctx rest)
      | "env" => .ok (resolveEnv ctx rest.head?)
      | "context" => .ok (resolveContextPath ctx rest)
      | "variables" => .ok (navigatePath ctx.variablesMap rest)
      | "action" => .ok (resolveActionResult ctx path)
      | _ => .ok (vStr ("\x7b\x7b" ++ expression ++ "\x7d\x7d"))
    | [] => .ok (vStr ("\x7b\x7b" ++ expression ++ "\x7d\x7d"))

/-! ## Function registry fragment (`functions/collection-functions.ts`) -/

structure SmartFn where
  minArgs : Nat
  maxArgs : Nat
  execute : JsVal → List JsVal → Except String JsVal

/-- The inner dotted-path navigation of `map` (and `filter`/`sum`/`avg`)
(collection-functions.ts:150-165), with the `attributes` alias;
a `null`/`undefined` intermediate yields `null`. -/
def mapNavGo : JsVal → List String → JsVal
  | current, [] => current
  | current, seg :: rest =>
      if isNullishV current then vNull
      else if seg = "attributes" && jsTruthy (objGet current "attributeValues") then
        mapNavGo (objGet current "attributeValues") rest
      else mapNavGo (objGet current seg) rest

/-- `map` (collection-functions.ts:142-167). -/
def mapExecute (value : JsVal) (args : List JsVal) : JsVal :=
  match value with
  | vArr items =>
      let path := sSplitDots (jsString (args.headD vUndef))
      vArr (items.map fun item => if isNullishV item then vNull else mapNavGo item path)
  | _ => vArr []

/-- `join` (collection-functions.ts:44-53). -/
def joinExecute (value : JsVal) (args : List JsVal) : JsVal :=
  match value with
  | vArr elems =>
      let delimiter :=
        match args.head? with
        | some a => if isNullishV a then ", " else jsString a
        | none => ", "
      vStr (String.intercalate delimiter (elems.map jsString))
  | v => vStr (jsString v)

/-- The registry fragment needed by the claims (`createDefaultRegistry`
registers many more functions; no proved input calls — or
property-accesses the name of — any function outside this fragment, so
`none` for other names is observationally faithful on those inputs). -/
def registryGet (name : String) : Option SmartFn :=
  match name with
  | "map" => some ⟨1, 1, fun v args => .ok (mapExecute v args)⟩
  | "join" => some ⟨0, 1, fun v args => .ok (joinExecute v args)⟩
  | _ => none

/-! ## Expression evaluator (`expression-evaluator`, smart-values) -/

/-- `x ?? ''` as used by the `+` operator. -/
def nullishToEmptyStr : JsVal → JsVal
  | vNull => vStr ""
  | vUndef => vStr ""
  | v => v

/-- `ExpressionEvaluator.evaluateBinary` (smart-values:280-314): `+` is
string concatenation when either side is a string, otherwise numeric;
division by zero throws; `==`/`!=` are JavaScript loose equality; the
comparisons coerce both sides to numbers (false on NaN).  Division in the
integral model truncates where JavaScript would produce a fraction (no
proved input divides). -/
def evalBinaryOp (operator : String) (l r : JsVal) : Except String JsVal :=
  match operator with
  | "+" =>
      if (l matches vStr _) || (r matches vStr _) then
        .ok (vStr (jsString (nullishToEmptyStr l) ++ jsString (nullishToEmptyStr r)))
      else
        match jsToNumber l, jsToNumber r with
        | some a, some b => .ok (vNum (a + b))
        | _, _ => .ok vNaN
  | "-" =>
      match jsToNumber l, jsToNumber r with
      | some a, some b => .ok (vNum (a - b))
      | _, _ => .ok vNaN
  | "*" =>
      match jsToNumber l, jsToNumber r with
      | some a, some b => .ok (vNum (a * b))
      | _, _ => .ok vNaN
  | "/" =>
      match jsToNumber r with
      | some 0 => .error "Division by zero"
      | some d =>
          match jsToNumber l with
          | some a => .ok (vNum (a / d))
          | none => .ok vNaN
      | none => .ok vNaN
  | "==" => .ok (vBool (jsLooseEqV l r))
  | "!=" => .ok (vBool (!jsLooseEqV l r))
  | ">" =>
      .ok (vBool (match jsToNumber l, jsToNumber r with
                  | some a, some b => a > b
                  | _, _ => false))
  | "<" =>
      .ok (vBool (match jsToNumber l, jsToNumber r with
                  | some a, some b => a < b
                  | _, _ => false))
  | ">=" =>
      .ok (vBool (match jsToNumber l, jsToNumber r with
                  | some a, some b => a ≥ b
                  | _, _ => false))
  | "<=" =>
      .ok (vBool (match jsToNumber l, jsToNumber r with
                  | some a, some b => a ≤ b
                  | _, _ => false))
  | _ => .error ("Unknown operator: " ++ operator)

/-- `evaluateChain`'s property-access object branch
(smart-values:204-213), shared by registered-function fallthrough and
unknown names: the `attributes` alias, then a plain member read; a
non-object receiver yields `undefined`. -/
def propAccessFallback (v : JsVal) (name : String) : JsVal :=
  match v with
  | vObj _ =>
      if name = "attributes" && jsTruthy (objGet v "attributeValues") then
        objGet v "attributeValues"
      else objGet v name
  | vArr _ =>
      if name = "attributes" && jsTruthy (objGet v "attributeValues") then
        objGet v "attributeValues"
      else objGet v name
  | _ => vUndef

mutual
/-- `ExpressionEvaluator.evaluate` (smart-values:135-162): path nodes
delegate to the legacy resolver, `oql:` nodes to the OQL resolver oracle,
pipes are null-coalescing (left unless it is `null`/`undefined`/`""`).
The fuel argument only bounds recursion depth (it exceeds the depth of
any AST the parser can produce from the fuel chosen by
`resolveExpressionSmart`). -/
def evaluate (ctx : CtxM) : Nat → AST → Except String JsVal
  | 0, _ => .error "evaluator fuel exhausted"
  | fuel + 1, ast =>
    match ast with
    | .path segments => resolveExpressionLegacy ctx (String.intercalate "." segments)
    | .chain base operations => do
        let v ← evaluate ctx fuel base
        evalChainOps ctx fuel v operations
    | .funcCall name args =>
        if name = "lookup" then
          match args with
          | key :: _ => do
              let k ← evaluate ctx fuel key
              .ok (ctx.lookupItemByKey (jsString k))
          | [] => .error "lookup() requires at least 1 argument (item key)"
        else
          match registryGet name with
          | some fn => do
              let resolvedArgs ← evalList ctx fuel args
              fn.execute vNull resolvedArgs
          | none => .error ("Unknown function: " ++ name)
    | .lit v => .ok v
    | .pipe left right => do
        let l ← evaluate ctx fuel left
        match l with
        | vNull => evaluate ctx fuel right
        | vUndef => evaluate ctx fuel right
        | vStr "" => evaluate ctx fuel right
        | v => .ok v
    | .binary operator left right => do
        let l ← evaluate ctx fuel left
        let r ← evaluate ctx fuel right
        evalBinaryOp operator l r
    | .oqlQuery query => ctx.oqlResolve query

/-- `ExpressionEvaluator.evaluateChain` (smart-values:170-236). -/
def evalChainOps (ctx : CtxM) : Nat → JsVal → List ChainOp → Except String JsVal
  | 0, _, _ => .error "evaluator fuel exhausted"
  | _ + 1, v, [] => .ok v
  | fuel + 1, v, .funcCall name args :: rest =>
      match registryGet name with
      | none => .error ("Unknown function: " ++ name)
      | some fn => do
          let resolvedArgs ← evalList ctx fuel args
          if resolvedArgs.length < fn.minArgs || resolvedArgs.length > fn.maxArgs then
            .error ("Function " ++ name ++ " got a wrong number of args")
          else do
            let v' ← fn.execute v resolvedArgs
            evalChainOps ctx fuel v' rest
  | fuel + 1, v, .propertyAccess name :: rest =>
      (match registryGet name with
       | some fn =>
           if fn.minArgs = 0 then do
             let v' ← fn.execute v []
             evalChainOps ctx fuel v' rest
           else evalChainOps ctx fuel (propAccessFallback v name) rest
       | none => evalChainOps ctx fuel (propAccessFallback v name) rest)
  | fuel + 1, v, .indexAccess index :: rest => do
      let idx ← evaluate ctx fuel index
      let v' :=
        match v with
        | vArr elems =>
            (match jsToNumber idx with
             | some i => if 0 ≤ i then (elems[i.toNat]?).getD vUndef else vUndef
             | none => vUndef)
        | vObj _ => objGet v (jsString idx)
        | _ => vUndef
      evalChainOps ctx fuel v' rest

def evalList (ctx : CtxM) : Nat → List AST → Except String (List JsVal)
  | 0, _ => .error "evaluator fuel exhausted"
  | _ + 1, [] => .ok []
  | fuel + 1, a :: rest => do
      let v ← evaluate ctx fuel a
      let vs ← evalList ctx fuel rest
      .ok (v :: vs)
end

/-- `resolveExpressionSmart` (template-resolver.ts:110-122): parse and
evaluate; `catch` — around BOTH the parse and the evaluation — falls back
to the legacy resolver. -/
def resolveExpressionSmart (ctx : CtxM) (expression : String) : Except String JsVal :=
  match (do
      let ast ← parse expression
      evaluate ctx (8 * (expression.length + 1) + 8) ast : Except String JsVal) with
  | .ok v => .ok v
  | .error _ => resolveExpressionLegacy ctx expression

/-! ## String scanning helpers (JavaScript regex/`indexOf`/`replace`
semantics specialised to the literal patterns the block processor and
`resolveString` use) -/

/-- `String.indexOf(pat)` (first index at which `pat` occurs). -/
def indexOfSub (pat : List Char) : List Char → Option Nat
  | [] => if pat.isPrefixOf [] then some 0 else none
  | c :: rest =>
      if pat.isPrefixOf (c :: rest) then some 0
      else (indexOfSub pat rest).map (fun n => n + 1)

def containsSub (pat cs : List Char) : Bool :=
  (indexOfSub pat cs).isSome

/-- `String.replace(pat, repl)` with a plain-string pattern: replace the
first occurrence.  (JavaScript `$`-substitution in the replacement is
outside the model; no proved input produces `$` in a replacement.) -/
def replaceFirstList : List Char → List Char → List Char → List Char
  | [], pat, repl => if pat.isPrefixOf [] then repl else []
  | c :: rest, pat, repl =>
      if pat.isPrefixOf (c :: rest) then repl ++ (c :: rest).drop pat.length
      else c :: replaceFirstList rest pat repl

/-- Global replacement (for the `{{@index}}`-style `/g` regexes, whose
patterns are literal strings). -/
def replaceAllGo : Nat → List Char → List Char → List Char → List Char
  | 0, cs, _, _ => cs
  | fuel + 1, cs, pat, repl =>
    if pat ≠ [] ∧ pat.isPrefixOf cs then
      repl ++ replaceAllGo fuel (cs.drop pat.length) pat repl
    else
      match cs with
      | [] => []
      | c :: rest => c :: replaceAllGo fuel rest pat repl

def replaceAllList (cs pat repl : List Char) : List Char :=
  replaceAllGo (cs.length + 1) cs pat repl

/-- Generic non-overlapping scan of all matches of a position-anchored
matcher (the `/g`-regex `exec` loop): on a match, resume after it; else
advance one character. -/
def scanMatches (matchAt : List Char → Option (Nat × List Char × String)) :
    Nat → Nat → List Char → List (Nat × Nat × List Char × String)
  | 0, _, _ => []
  | fuel + 1, pos, cs =>
    match cs with
    | [] => []
    | _ :: rest =>
      match matchAt cs with
      | some (len, full, payload) =>
          (pos, pos + len, full, payload) ::
            scanMatches matchAt fuel (pos + len) (cs.drop len)
      | none => scanMatches matchAt fuel (pos + 1) rest

/-! ## Block processor (`block-processor`, smart-values) -/

/-- Matcher for `/\{\{#each\s+(.+?)\}\}/` anchored at the current
position: the literal open marker, at least one whitespace character, a
lazily-matched expression (which cannot span a newline) up to the first
close marker.  Returns the match length, matched text and the trimmed
expression. -/
def eachOpenMatchAt (cs : List Char) : Option (Nat × List Char × String) :=
  if ("\x7b\x7b#each".data).isPrefixOf cs then
    let rest := cs.drop 7
    match rest with
    | [] => none
    | c0 :: _ =>
      if isJsSpace c0 then
        match indexOfSub ("\x7d\x7d".data) rest with
        | some cIdx =>
            if cIdx ≥ 2 then
              let maxRun := (rest.takeWhile isJsSpace).length
              let k := min maxRun (cIdx - 1)
              let capture := (rest.take cIdx).drop k
              if capture.all (fun ch => ch ≠ '\n') then
                some (7 + cIdx + 2, cs.take (7 + cIdx + 2),
                      sTrim (((rest.take cIdx).drop 1).asString))
              else none
            else none
        | none => none
      else none
  else none

/-- Matcher for `/\{\{#if\s+(.+?)\}\}/`, as for `#each`. -/
def ifOpenMatchAt (cs : List Char) : Option (Nat × List Char × String) :=
  if ("\x7b\x7b#if".data).isPrefixOf cs then
    let rest := cs.drop 5
    match rest with
    | [] => none
    | c0 :: _ =>
      if isJsSpace c0 then
        match indexOfSub ("\x7d\x7d".data) rest with
        | some cIdx =>
            if cIdx ≥ 2 then
              let maxRun := (rest.takeWhile isJsSpace).length
              let k := min maxRun (cIdx - 1)
              let capture := (rest.take cIdx).drop k
              if capture.all (fun ch => ch ≠ '\n') then
                some (5 + cIdx + 2, cs.take (5 + cIdx + 2),
                      sTrim (((rest.take cIdx).drop 1).asString))
              else none
            else none
        | none => none
      else none
  else none

/-- The open-tag matches of `processInnermostEach`/`processInnermostIf`
that have a matching close tag with no nested open tag in the body
(block-processor:243-257, 324-336); the source keeps the last one. -/
def innermostCandidates (openMatchAt : List Char → Option (Nat × List Char × String))
    (openTag closeTag : List Char) (cs : List Char) :
    List (Nat × Nat × List Char × String) :=
  (scanMatches openMatchAt (cs.length + 1) 0 cs).filter fun m =>
    match indexOfSub closeTag (cs.drop m.2.1) with
    | some c => !(containsSub openTag ((cs.drop m.2.1).take c))
    | none => false

/-- Matcher for `/\{\{(currentItem(?:\.[^}]+)?)\}\}/`: the literal
`{{currentItem`, optionally a dot and a non-empty run of non-`}`
characters, then the close marker.  Returns length, matched text and the
trimmed capture. -/
def currentItemMatchAt (cs : List Char) : Option (Nat × List Char × String) :=
  if ("\x7b\x7bcurrentItem".data).isPrefixOf cs then
    let rest := cs.drop 13
    match rest with
    | '\x7d' :: '\x7d' :: _ => some (15, cs.take 15, "currentItem")
    | '.' :: afterDot =>
        let run := afterDot.takeWhile (fun c => c ≠ '\x7d')
        if run ≠ [] then
          match afterDot.drop run.length with
          | '\x7d' :: '\x7d' :: _ =>
              let len := 13 + 1 + run.length + 2
              some (len, cs.take len, sTrim ("currentItem." ++ run.asString))
          | _ => none
        else none
    | _ => none
  else none

def currentItemMatches (cs : List Char) : List (List Char × String) :=
  (scanMatches currentItemMatchAt (cs.length + 1) 0 cs).map (fun m => (m.2.2.1, m.2.2.2))

/-- `BlockProcessor.isTruthy` (block-processor:422-429).  Note the source
checks exactly `null`, `undefined`, `false`, `0`, `""` and the empty
array, so the NaN marker comes out truthy here — faithfully mirrored. -/
def isTruthyB : JsVal → Bool
  | vNull => false
  | vUndef => false
  | vBool false => false
  | vNum 0 => false
  | vStr "" => false
  | vArr [] => false
  | _ => true

/-- The ordered operator-alternation `(==|!=|>=|<=|>|<)` of the `#if`
condition regex, tried as prefixes. -/
def condTryOps (cs : List Char) : Option (String × List Char) :=
  if ("==".data).isPrefixOf cs then some ("==", cs.drop 2)
  else if ("!=".data).isPrefixOf cs then some ("!=", cs.drop 2)
  else if (">=".data).isPrefixOf cs then some (">=", cs.drop 2)
  else if ("<=".data).isPrefixOf cs then some ("<=", cs.drop 2)
  else if (">".data).isPrefixOf cs then some (">", cs.drop 1)
  else if ("<".data).isPrefixOf cs then some ("<", cs.drop 1)
  else none

/-- The split performed by `/^(.+?)\s*(==|!=|>=|<=|>|<)\s*(.+)$/`
(block-processor:370): the shortest non-empty newline-free left group such
that after optional whitespace an operator follows, and the rest — after
the greedy whitespace run, backing off one character when it would
otherwise be empty — is a non-empty newline-free right group. -/
def condCompSplitGo (g1rev : List Char) : List Char → Option (String × String × String)
  | [] => none
  | c :: rest =>
      if c = '\n' then none
      else
        let attempt :=
          let afterWs := rest.dropWhile isJsSpace
          match condTryOps afterWs with
          | some (op, afterOp) =>
              let rem := afterOp.dropWhile isJsSpace
              if rem ≠ [] ∧ rem.all (fun ch => ch ≠ '\n') then
                some (((c :: g1rev).reverse).asString, op, rem.asString)
              else if rem = [] ∧ afterOp ≠ [] ∧ afterOp.getLast? ≠ some '\n' then
                some (((c :: g1rev).reverse).asString, op,
                      (afterOp.drop (afterOp.length - 1)).asString)
              else none
          | none => none
        match attempt with
        | some r => some r
        | none => condCompSplitGo (c :: g1rev) rest

def condCompSplit (cs : List Char) : Option (String × String × String) :=
  condCompSplitGo [] cs

/-- The numeric-literal regex `^-?\d+(\.\d+)?$` of
`resolveConditionValue`. -/
def isNumericLit (s : String) : Bool :=
  let cs := match s.data with
            | '-' :: r => r
            | r => r
  let ds := cs.takeWhile Char.isDigit
  decide (ds ≠ []) &&
    (match cs.drop ds.length with
     | [] => true
     | '.' :: fr => decide (fr ≠ []) && fr.all Char.isDigit
     | _ => false)

def squoteStr : String := String.singleton squoteChar

/-- `BlockProcessor.resolveConditionValue` (block-processor:402-420). -/
def resolveConditionValue (ctx : CtxM) (expr : String) : Except String JsVal :=
  if (sStartsWith expr "\"" && sEndsWith expr "\"") ||
     (sStartsWith expr squoteStr && sEndsWith expr squoteStr) then
    .ok (vStr ((expr.drop 1).dropRight 1))
  else if isNumericLit expr then .ok (jsParseFloat expr)
  else if expr = "true" then .ok (vBool true)
  else if expr = "false" then .ok (vBool false)
  else if expr = "null" then .ok vNull
  else resolveExpressionSmart ctx expr

/-- `BlockProcessor.evaluateCondition` (block-processor:368-396). -/
def evaluateCondition (ctx : CtxM) (expression : String) : Except String Bool :=
  match condCompSplit expression.data with
  | some (leftRaw, op, rightRaw) => do
      let leftVal ← resolveConditionValue ctx (sTrim leftRaw)
      let rightVal ← resolveConditionValue ctx (sTrim rightRaw)
      .ok (match op with
           | "==" => jsLooseEqV leftVal rightVal
           | "!=" => !jsLooseEqV leftVal rightVal
           | ">" => (match jsToNumber leftVal, jsToNumber rightVal with
                     | some a, some b => a > b
                     | _, _ => false)
           | "<" => (match jsToNumber leftVal, jsToNumber rightVal with
                     | some a, some b => a < b
                     | _, _ => false)
           | ">=" => (match jsToNumber leftVal, jsToNumber rightVal with
                      | some a, some b => a ≥ b
                      | _, _ => false)
           | "<=" => (match jsToNumber leftVal, jsToNumber rightVal with
                      | some a, some b => a ≤ b
                      | _, _ => false)
           | _ => false)
  | none => do
      let value ← resolveExpressionSmart ctx expression
      .ok (isTruthyB value)

/-- The child `variables` map of an `#each` iteration
(block-processor:276-285): the parent map spread with the `@index`,
`@first`, `@last` pseudo-variables. -/
def eachChildVars (vars : JsVal) (i total : Nat) : JsVal :=
  let pseudo := fun fields =>
    vObj (objSet (objSet (objSet fields "@index" (vNum i))
                         "@first" (vBool (i = 0)))
                 "@last" (vBool (i = total - 1)))
  match vars with
  | vObj fields => pseudo fields
  | _ => pseudo []

/-- The per-match resolution loop of `processInnermostEach`
(block-processor:296-305): matches are taken from the expanded body;
replacement happens in the accumulating string, first occurrence each
time. -/
def applyItemMatches (ctx : CtxM) : List Char → List (List Char × String) →
    Except String (List Char)
  | acc, [] => .ok acc
  | acc, (full, expr) :: rest => do
      let value ← resolveExpressionSmart ctx expr
      applyItemMatches ctx (replaceFirstList acc full (stringifyV value).data) rest

/-- The per-item expansion loop of `processInnermostEach`
(block-processor:272-308). -/
def eachExpand (ctx : CtxM) (body : List Char) (total : Nat) :
    List JsVal → Nat → Except String (List String)
  | [], _ => .ok []
  | item :: restItems, i => do
      let e1 := replaceAllList body ("\x7b\x7b@index\x7d\x7d".data) (natToStr i).data
      let e2 := replaceAllList e1 ("\x7b\x7b@first\x7d\x7d".data)
                  (if i = 0 then "true".data else "false".data)
      let e3 := replaceAllList e2 ("\x7b\x7b@last\x7d\x7d".data)
                  (if i = total - 1 then "true".data else "false".data)
      let childCtx := { ctx with currentItem := item,
                                 variablesMap := eachChildVars ctx.variablesMap i total }
      let resolved ← applyItemMatches childCtx e3 (currentItemMatches e3)
      let rest ← eachExpand ctx body total restItems (i + 1)
      .ok (resolved.asString :: rest)

/-- `BlockProcessor.processInnermostEach` (block-processor:235-311):
`.ok none` when no innermost `#each` block exists; otherwise the template
with the last innermost block replaced by its expansion. -/
def processInnermostEach (ctx : CtxM) (template : String) : Except String (Option String) :=
  let cs := template.data
  match (innermostCandidates eachOpenMatchAt ("\x7b\x7b#each".data)
          ("\x7b\x7b/each\x7d\x7d".data) cs).getLast? with
  | none => .ok none
  | some (openStart, openEnd, _, expression) =>
      match indexOfSub ("\x7b\x7b/each\x7d\x7d".data) (cs.drop openEnd) with
      | none => .ok none
      | some cRel => do
          let body := (cs.drop openEnd).take cRel
          let afterClose := openEnd + cRel + 9
          let collection ← resolveExpressionSmart ctx expression
          let items :=
            match collection with
            | vArr xs => xs
            | v => if jsTruthy v then [v] else []
          let parts ← eachExpand ctx body items.length items 0
          .ok (some ((cs.take openStart ++ (String.join parts).data ++
                      cs.drop afterClose).asString))

/-- `BlockProcessor.processInnermostIf` (block-processor:317-355). -/
def processInnermostIf (ctx : CtxM) (template : String) : Except String (Option String) :=
  let cs := template.data
  match (innermostCandidates ifOpenMatchAt ("\x7b\x7b#if".data)
          ("\x7b\x7b/if\x7d\x7d".data) cs).getLast? with
  | none => .ok none
  | some (openStart, openEnd, _, expression) =>
      match indexOfSub ("\x7b\x7b/if\x7d\x7d".data) (cs.drop openEnd) with
      | none => .ok none
      | some cRel => do
          let body := (cs.drop openEnd).take cRel
          let afterClose := openEnd + cRel + 7
          let elseIdx := indexOfSub ("\x7b\x7belse\x7d\x7d".data) body
          let thenBody :=
            match elseIdx with
            | some i => body.take i
            | none => body
          let elseBody :=
            match elseIdx with
            | some i => body.drop (i + 8)
            | none => []
          let conditionResult ← evaluateCondition ctx expression
          let selected := if conditionResult then thenBody else elseBody
          .ok (some ((cs.take openStart ++ selected ++ cs.drop afterClose).asString))

/-- `BlockProcessor.processBlocks` (block-processor:199-229): repeatedly
process an innermost `#each`, then an innermost `#if`, up to the
`MAX_ITERATIONS = 100` loop guard (the template is returned with the
remaining blocks unexpanded when the guard trips). -/
def processBlocksGo (ctx : CtxM) : Nat → String → Except String String
  | 0, result => .ok result
  | k + 1, result => do
      match ← processInnermostEach ctx result with
      | some r => processBlocksGo ctx k r
      | none =>
        match ← processInnermostIf ctx result with
        | some r => processBlocksGo ctx k r
        | none => .ok result

def processBlocks (ctx : CtxM) (template : String) : Except String String :=
  processBlocksGo ctx 100 template

/-! ## `resolveString` (template-resolver.ts:52-79) -/

/-- `BLOCK_TAG_REGEX = /\{\{#(each|if)\s/` (template-resolver.ts:22). -/
def blockTagTest : List Char → Bool
  | [] => false
  | c :: rest =>
      ((("\x7b\x7b#each".data).isPrefixOf (c :: rest) &&
        (match (c :: rest).drop 7 with
         | w :: _ => isJsSpace w
         | [] => false)) ||
       (("\x7b\x7b#if".data).isPrefixOf (c :: rest) &&
        (match (c :: rest).drop 5 with
         | w :: _ => isJsSpace w
         | [] => false))) ||
      blockTagTest rest

/-- Matcher for `TEMPLATE_REGEX = /\{\{(.+?)\}\}/` anchored at the
current position: the lazily-matched inner text is non-empty, stops at
the first close marker and cannot span a newline. -/
def templateMatchAt (cs : List Char) : Option (Nat × List Char × String) :=
  if ("\x7b\x7b".data).isPrefixOf cs then
    let rest := cs.drop 2
    match indexOfSub ("\x7d\x7d".data) rest with
    | some q =>
        if q ≥ 1 ∧ (rest.take q).all (fun c => c ≠ '\n') then
          some (2 + q + 2, cs.take (2 + q + 2), (rest.take q).asString)
        else none
    | none => none
  else none

/-- `[...processed.matchAll(TEMPLATE_REGEX)]` (template-resolver.ts:63). -/
def templateMatches (cs : List Char) : List (List Char × String) :=
  (scanMatches templateMatchAt (cs.length + 1) 0 cs).map (fun m => (m.2.2.1, m.2.2.2))

/-- The per-match loop of `resolveString` (template-resolver.ts:66-76):
block-control tokens (`#…`, `/…`, `else`) are skipped; each other
expression is resolved and its stringification replaces the first
occurrence of the matched text in the accumulating result. -/
def resolveStringApply (ctx : CtxM) : List Char → List (List Char × String) →
    Except String (List Char)
  | acc, [] => .ok acc
  | acc, (full, inner) :: rest =>
      let expression := sTrim inner
      if sStartsWith expression "#" || sStartsWith expression "/" || expression = "else" then
        resolveStringApply ctx acc rest
      else do
        let value ← resolveExpressionSmart ctx expression
        resolveStringApply ctx (replaceFirstList acc full (stringifyV value).data) rest

/-- `TemplateResolver.resolveString` (template-resolver.ts:52-79): no-op
without `{{`; otherwise the block phase (when a block tag is present)
followed by the expression phase. -/
def resolveString (ctx : CtxM) (template : String) : Except String String := do
  if !(containsSub ("\x7b\x7b".data) template.data) then .ok template
  else do
    let processed ←
      if blockTagTest template.data then processBlocks ctx template
      else pure template
    let res ← resolveStringApply ctx processed.data (templateMatches processed.data)
    .ok res.asString

/-! ## Concrete fixtures used by the theorems -/

/-- A minimal execution context: a manual-trigger event, no current item,
an OQL oracle that fails (inline OQL is not exercised), a lookup oracle
returning `null`. -/
def baseCtx : CtxM :=
  { automationId := "auto-1", automationName := "rule", workspaceId := "ws-1",
    trigger := vObj [("type", vStr "manual"), ("automationId", vStr "auto-1"),
                     ("timestamp", vStr "2026-01-01T00:00:00Z")],
    componentResults := vArr [], variablesMap := vObj [], createdItems := vArr [],
    currentItem := vUndef, startedAt := "2026-01-01T00:00:00Z",
    oqlResolve := fun _ => .error "OQL template error: no upstream",
    lookupItemByKey := fun _ => vNull,
    envNow := "2026-01-01T00:00:00Z", envToday := "2026-01-01" }

/-- Items of the shape `{ key: s }`, one per string. -/
def keyItems (ss : List String) : List JsVal :=
  ss.map fun s => vObj [("key", vStr s)]

/-- `baseCtx` with `variables.coll` bound to the given collection. -/
def collCtx (items : List JsVal) : CtxM :=
  { baseCtx with variablesMap := vObj [("coll", vArr items)] }

/-- `"{{#each variables.coll}}{{currentItem.key}}{{/each}}"`. -/
def eachTemplate : String :=
  "\x7b\x7b#each variables.coll\x7d\x7d\x7b\x7bcurrentItem.key\x7d\x7d\x7b\x7b/each\x7d\x7d"

/-- `"{{variables.coll | map(\"key\") | join(\"\")}}"`. -/
def pipeTemplate : String :=
  "\x7b\x7bvariables.coll | map(\"key\") | join(\"\")\x7d\x7d"

/-- `"{{10 / 0}}"`. -/
def divTemplate : String := "\x7b\x7b10 / 0\x7d\x7d"

/-! # Theorems -/

/-- **C5.** `oql.match` policy (trigger-manager.ts:372-415): the very
first observation (no stored count) never fires for `new_results` and
`count_change` and only primes the stored count; thereafter
`new_results` fires iff `totalCount > prevCount` with `prevCount ≥ 0`,
`count_change` fires iff `totalCount ≠ prevCount` with `prevCount ≥ 0`,
`any_results` fires iff `totalCount > 0`; and after each (non-throwing)
tick the stored `lastSeenData.oqlCount` equals the observed
`totalCount`. -/
theorem C5_oql_match_policy :
    ∀ (storedCount : Option Int) (p total : Int) (triggerOn : String),
      (pollOqlMatch "new_results" none (.ok total) true).fired = false ∧
      (pollOqlMatch "count_change" none (.ok total) true).fired = false ∧
      (pollOqlMatch "new_results" none (.ok total) true).newOqlCount = some total ∧
      ((pollOqlMatch "new_results" (some p) (.ok total) true).fired = true ↔
        total > p ∧ p ≥ 0) ∧
      ((pollOqlMatch "count_change" (some p) (.ok total) true).fired = true ↔
        total ≠ p ∧ p ≥ 0) ∧
      ((pollOqlMatch "any_results" storedCount (.ok total) true).fired = true ↔ total > 0) ∧
      (pollOqlMatch triggerOn storedCount (.ok total) true).newOqlCount = some total := by
  intro storedCount p total triggerOn
  refine ⟨?_, ?_, ?_, ?_, ?_, ?_, ?_⟩ <;> simp [pollOqlMatch]

/-- **C6 counterexample.** At `a = 0`, `b = false` the implementation's
`equals` disagrees with the claimed formula
`a == b || String(a).toLowerCase() == String(b).toLowerCase()`: JavaScript
loose equality makes the formula true (`0 == false`), but the code's
`looseEquals` (strict equality, null-pair check, lower-cased string
comparison `"0"` vs `"false"`) returns false. -/
theorem C6_counterexample :
    ¬ (compareValue "equals" (JsPrim.pnum 0) (JsPrim.pbool false) = true
        ↔ specEqualsFormula (JsPrim.pnum 0) (JsPrim.pbool false) = true) := by
  decide

/-- **C6 (amended).** For all primitive values `a`, `b`, the `equals`
operator returns true exactly when `a === b` (strict), or both sides are
`null`/`undefined`, or `String(a).toLowerCase() ===
String(b).toLowerCase()`; `not_equals` is its negation.  In particular
`equals(null, undefined)` is true, while the loose-coercion pair
`equals(0, false)` is false. -/
theorem C6_equals_amended :
    ∀ a b : JsPrim,
      (compareValue "equals" a b = true ↔
        (jsStrictEq a b = true ∨ (isNullish a = true ∧ isNullish b = true) ∨
         sToLower (jsStringP a) = sToLower (jsStringP b))) ∧
      compareValue "not_equals" a b = !compareValue "equals" a b ∧
      compareValue "equals" .pnull .pundef = true ∧
      compareValue "equals" (.pnum 0) (.pbool false) = false := by
  intro a b
  refine ⟨?_, rfl, by decide, by decide⟩
  simp only [compareValue, looseEquals]
  split_ifs with h1 h2 <;> simp_all [Bool.and_eq_true]

/-- **C7.** The template `{{10 / 0}}`: the expression parses, its
evaluation throws `Division by zero` — but `resolveExpressionSmart`
catches the evaluation error together with parse errors and falls back to
the legacy resolver, which returns the placeholder unchanged, so no error
propagates out of template resolution and the enclosing action does not
fail.  (The claim — and the code's own comment, which promises fallback
on *parse* failure — say the evaluation error should propagate.) -/
theorem C7_divide_by_zero_swallowed :
    parse "10 / 0" = .ok (.binary "/" (.lit (vNum 10)) (.lit (vNum 0))) ∧
    evaluate baseCtx 100 (.binary "/" (.lit (vNum 10)) (.lit (vNum 0)))
      = .error "Division by zero" ∧
    resolveExpressionSmart baseCtx "10 / 0" = .ok (vStr divTemplate) ∧
    resolveString baseCtx divTemplate = .ok divTemplate := by
  exact ⟨rfl, rfl, rfl, rfl⟩

/-- **C9 counterexample.** `a + b == c` does *not* parse as
`(a + b) == c`: the parser produces `a + (b == c)`, because
`parseAdditive` takes `parseComparison` results as operands, making the
comparison operators bind tighter than `+ - * /` — the opposite of the
claimed precedence. -/
theorem C9_counterexample :
    parse "a + b == c"
      = .ok (.binary "+" (.path ["a"]) (.binary "==" (.path ["b"]) (.path ["c"]))) ∧
    AST.binary "+" (.path ["a"]) (.binary "==" (.path ["b"]) (.path ["c"]))
      ≠ AST.binary "==" (.binary "+" (.path ["a"]) (.path ["b"])) (.path ["c"]) := by
  refine ⟨rfl, ?_⟩
  intro h
  injection h with h1 h2 h3
  exact absurd h1 (by decide)

/-- **C9 (amended).** The parser's precedence, lowest to highest, is:
pipe `|`, then the additive/multiplicative operators `+ - * /` (one
left-associative level), then the comparison operators
`== != < > <= >=`; consequently `a + b == c` parses as `a + (b == c)`
(and a comparison under a pipe or under `+` stays inside the tighter
operand). -/
theorem C9_amended_precedence :
    parse "a | b + c" = .ok (.pipe (.path ["a"]) (.binary "+" (.path ["b"]) (.path ["c"]))) ∧
    parse "a | b == c" = .ok (.pipe (.path ["a"]) (.binary "==" (.path ["b"]) (.path ["c"]))) ∧
    parse "a + b == c"
      = .ok (.binary "+" (.path ["a"]) (.binary "==" (.path ["b"]) (.path ["c"]))) ∧
    parse "a == b + c"
      = .ok (.binary "+" (.binary "==" (.path ["a"]) (.path ["b"])) (.path ["c"])) := by
  exact ⟨rfl, rfl, rfl, rfl⟩

/-- **C10.** `handleTriggerEvent` (executor.ts:217-226): when the
referenced rule does not exist or is disabled at handling time, the event
is silently dropped — no Execution record is created and no error reaches
the caller; and (second conjunct) the handler never propagates an error
to its caller at all. -/
theorem C10_missing_or_disabled_dropped :
    (∀ (lookup : Option RuleRow) (exec : RuleRow → ExecEffect),
       (lookup = none ∨ ∃ r, lookup = some r ∧ r.enabled = false) →
       handleTriggerEvent lookup exec = ([], .ok ())) ∧
    (∀ (lookup : Option RuleRow) (exec : RuleRow → ExecEffect),
       (handleTriggerEvent lookup exec).2 = .ok ()) := by
  constructor
  · rintro lookup exec (rfl | ⟨r, rfl, hr⟩)
    · rfl
    · simp [handleTriggerEvent, hr]
  · intro lookup exec
    match lookup with
    | none => rfl
    | some r =>
      by_cases hr : r.enabled <;> simp [handleTriggerEvent, hr]

/-- Witness for C10 at a concrete missing rule and a concrete disabled
rule. -/
theorem C10_witness :
    handleTriggerEvent none (fun _ => ⟨["exec-1"], .ok "e"⟩) = ([], .ok ()) ∧
    handleTriggerEvent (some ⟨false⟩) (fun _ => ⟨["exec-1"], .ok "e"⟩) = ([], .ok ()) := by
  exact ⟨C10_missing_or_disabled_dropped.1 none _ (Or.inl rfl),
         C10_missing_or_disabled_dropped.1 (some ⟨false⟩) _ (Or.inr ⟨⟨false⟩, rfl, rfl⟩)⟩

/-- `drainQueue` keeps `active` within the cap, moves queue entries to the
admitted log without loss or reordering, and never touches the enqueued
log. -/
theorem drainQueue_spec (maxC : Nat) (s : GateState) :
    (s.active ≤ maxC → (drainQueue maxC s).active ≤ maxC) ∧
    (drainQueue maxC s).admittedLog ++ (drainQueue maxC s).queue = s.admittedLog ++ s.queue ∧
    (drainQueue maxC s).enqueuedLog = s.enqueuedLog := by
  induction s using drainQueue.induct maxC with
  | case1 s hq =>
      rw [drainQueue, hq]
      simp [hq]
  | case2 s id rest hq hlt ih =>
      rw [drainQueue, hq]
      simp only [hlt, if_pos]
      refine ⟨fun _ => ih.1 (by simp; omega), ?_, ih.2.2⟩
      rw [ih.2.1]
      simp [hq]
  | case3 s id rest hq hge =>
      rw [drainQueue, hq]
      simp [hge, hq]

/-- One gate transition preserves the cap and the FIFO log equation
`admittedLog ++ queue = enqueuedLog`. -/
theorem gateStep_inv (maxC : Nat) (s : GateState) (e : GateEvent)
    (h1 : s.active ≤ maxC) (h2 : s.admittedLog ++ s.queue = s.enqueuedLog) :
    (gateStep maxC s e).active ≤ maxC ∧
    (gateStep maxC s e).admittedLog ++ (gateStep maxC s e).queue
      = (gateStep maxC s e).enqueuedLog := by
  cases e with
  | arrive id =>
      by_cases hs : s.active ≥ maxC
      · rw [gateStep, if_pos hs]
        exact ⟨h1, by rw [← List.append_assoc, h2]⟩
      · rw [gateStep, if_neg hs]
        exact ⟨by simp at hs ⊢; omega, h2⟩
  | complete =>
      by_cases hz : s.active = 0
      · rw [gateStep, if_pos hz]
        exact ⟨h1, h2⟩
      · rw [gateStep, if_neg hz]
        have hd := drainQueue_spec maxC { s with active := s.active - 1 }
        refine ⟨hd.1 (by simp; omega), ?_⟩
        rw [hd.2.1, hd.2.2]
        exact h2

/-- The gate invariant holds in every state reachable from the initial
state. -/
theorem gateRun_inv (maxC : Nat) (events : List GateEvent) :
    (gateRun maxC events).active ≤ maxC ∧
    (gateRun maxC events).admittedLog ++ (gateRun maxC events).queue
      = (gateRun maxC events).enqueuedLog := by
  have main : ∀ (l : List GateEvent) (s : GateState),
      s.active ≤ maxC → s.admittedLog ++ s.queue = s.enqueuedLog →
      ((l.foldl (gateStep maxC) s).active ≤ maxC ∧
       (l.foldl (gateStep maxC) s).admittedLog ++ (l.foldl (gateStep maxC) s).queue
         = (l.foldl (gateStep maxC) s).enqueuedLog) := by
    intro l
    induction l with
    | nil => intro s hh1 hh2; exact ⟨hh1, hh2⟩
    | cons e rest ih =>
        intro s hh1 hh2
        simp only [List.foldl_cons]
        have hstep := gateStep_inv maxC s e hh1 hh2
        exact ih _ hstep.1 hstep.2
  exact main events gateInit (by simp [gateInit]) (by simp [gateInit])

/-- **C2.** The concurrency gate (executor.ts:231-248, 250-252, 297-298):
`maxConcurrentExecutions` defaults to 10; an arrival while the gate is
saturated is appended to the FIFO queue (and logged in arrival order);
and along every event trace the number of concurrently running
executions never exceeds the cap, while `admittedLog ++ queue =
enqueuedLog` — queued work is admitted exactly in arrival order. -/
theorem C2_gate_fifo :
    resolveMaxConcurrent none = 10 ∧
    (∀ (maxC : Nat) (s : GateState) (id : Nat), s.active ≥ maxC →
        gateStep maxC s (.arrive id)
          = { s with queue := s.queue ++ [id], enqueuedLog := s.enqueuedLog ++ [id] }) ∧
    (∀ (maxC : Nat) (events : List GateEvent),
        (gateRun maxC events).active ≤ maxC ∧
        (gateRun maxC events).admittedLog ++ (gateRun maxC events).queue
          = (gateRun maxC events).enqueuedLog) := by
  refine ⟨rfl, ?_, fun maxC events => gateRun_inv maxC events⟩
  intro maxC s id hs
  simp [gateStep, hs]

/-- Witness for C2: a saturated concrete state queues the arrival, and a
concrete trace with cap 2 stays within the cap. -/
theorem C2_gate_witness :
    gateStep 2 { active := 2, queue := [5], admittedLog := [], enqueuedLog := [5] } (.arrive 9)
      = { active := 2, queue := [5, 9], admittedLog := [], enqueuedLog := [5, 9] } ∧
    (gateRun 2 [.arrive 1, .arrive 2, .arrive 3, .complete]).active ≤ 2 := by
  exact ⟨C2_gate_fifo.2.1 2 _ 9 (by decide), (C2_gate_fifo.2.2 2 _).1⟩

/-- A tick either leaves the bookmark unchanged (poll threw) or sets it
to the tick's wall-clock time. -/
theorem pollTick_lastCheckedAt (st : TriggerStateM) (o : Except String Unit) (now : Nat) :
    (pollTick st o now).lastCheckedAt = st.lastCheckedAt ∨
    (pollTick st o now).lastCheckedAt = now := by
  cases o <;> simp [pollTick, pollOnce]

/-- Along any tick sequence whose wall-clock times are non-decreasing
(and not before the stored bookmark), the stored `lastCheckedAt` never
moves backwards. -/
theorem runTicks_mono (ticks : List (Except String Unit × Nat)) :
    ∀ st : TriggerStateM,
      List.Chain' (· ≤ ·) (st.lastCheckedAt :: ticks.map Prod.snd) →
      List.Chain' (· ≤ ·)
        ((ticks.scanl (fun s t => pollTick s t.1 t.2) st).map TriggerStateM.lastCheckedAt) := by
  induction ticks with
  | nil =>
      intro st _
      simp [List.scanl]
  | cons t rest ih =>
      intro st h
      obtain ⟨o, now⟩ := t
      rw [List.map_cons, List.chain'_cons'] at h
      obtain ⟨hle, hrest⟩ := h
      have hnow : st.lastCheckedAt ≤ now := hle now (by simp)
      have hstlast : (pollTick st o now).lastCheckedAt = st.lastCheckedAt ∨
          (pollTick st o now).lastCheckedAt = now := pollTick_lastCheckedAt st o now
      have hge : st.lastCheckedAt ≤ (pollTick st o now).lastCheckedAt := by
        rcases hstlast with h1 | h1 <;> omega
      simp only [List.scanl_cons, List.singleton_append, List.map_cons]
      rw [List.chain'_cons']
      constructor
      · intro b hb
        cases rest with
        | nil =>
            simp [List.scanl] at hb
            omega
        | cons t2 r2 =>
            simp [List.scanl] at hb
            omega
      · apply ih
        rw [List.chain'_cons'] at hrest ⊢
        refine ⟨?_, hrest.2⟩
        intro b hb
        have := hrest.1 b hb
        rcases hstlast with h1 | h1 <;> omega

/-- **C4.** `pollOnce` (trigger-manager.ts:176-219): when the
kind-specific poll throws, the exception propagates before the
`lastCheckedAt := now` update and the tick wrapper leaves the stored
state unchanged (the next tick reprocesses the same window); a successful
poll advances `lastCheckedAt` to the current time; and across any tick
trace with non-decreasing wall-clock times the stored `lastCheckedAt` is
monotonically non-decreasing. -/
theorem C4_poll_bookmark :
    (∀ (st : TriggerStateM) (e : String) (now : Nat),
       pollOnce st (.error e) now = .error e ∧ pollTick st (.error e) now = st) ∧
    (∀ (st : TriggerStateM) (now : Nat),
       pollOnce st (.ok ()) now = .ok { lastCheckedAt := now }) ∧
    (∀ (st : TriggerStateM) (ticks : List (Except String Unit × Nat)),
       List.Chain' (· ≤ ·) (st.lastCheckedAt :: ticks.map Prod.snd) →
       List.Chain' (· ≤ ·)
         ((ticks.scanl (fun s t => pollTick s t.1 t.2) st).map TriggerStateM.lastCheckedAt)) := by
  exact ⟨fun st e now => ⟨rfl, rfl⟩, fun st now => rfl,
         fun st ticks h => runTicks_mono ticks st h⟩

/-- Witness for C4 at a concrete bookmark and tick trace (success at
time 6, failure at 7, success at 9). -/
theorem C4_witness :
    List.Chain' (· ≤ ·)
      ((TriggerStateM.mk 5).lastCheckedAt ::
        ([(Except.ok (), 6), (Except.error "x", 7), (Except.ok (), 9)].map Prod.snd)) ∧
    List.Chain' (· ≤ ·)
      ((([(Except.ok (), 6), (Except.error "x", 7), (Except.ok (), 9)] :
          List (Except String Unit × Nat)).scanl
          (fun s t => pollTick s t.1 t.2) ⟨5⟩).map TriggerStateM.lastCheckedAt) := by
  have h : List.Chain' (· ≤ ·)
      ((TriggerStateM.mk 5).lastCheckedAt ::
        ([(Except.ok (), 6), (Except.error "x", 7), (Except.ok (), 9)].map Prod.snd)) := by
    simp [List.chain'_cons]
  exact ⟨h, C4_poll_bookmark.2.2 ⟨5⟩ _ h⟩

/-- **C3.** Component-walk stopping semantics (executor.ts:366-379): a
condition component evaluating false yields a `skipped` result and no
later sibling runs; an action whose result is `failed` stops the
remaining siblings when `continueOnError` is false, and the walk
continues past it when `continueOnError` is true. -/
theorem C3_walk_stop (env : ExecEnv) (id : String) (rest : List Component) (t : Nat) :
    (env.conditionOutcome t = .notPassed →
       executeComponents env (.condition id :: rest) t
         = ([.mk id "condition" .skipped []], t + 1)) ∧
    (env.actionFailed t = true →
       executeComponents env (.action id false :: rest) t
         = ([.mk id "action" .failed []], t + 1)) ∧
    (env.actionFailed t = true →
       executeComponents env (.action id true :: rest) t
         = (ComponentResult.mk id "action" .failed []
              :: (executeComponents env rest (t + 1)).1,
            (executeComponents env rest (t + 1)).2)) := by
  refine ⟨fun hc => ?_, fun ha => ?_, fun ha => ?_⟩
  · simp [executeComponents, executeOne, hc, ComponentResult.status]
  · simp [executeComponents, executeOne, ha, ComponentResult.status]
  · simp [executeComponents, executeOne, ha, ComponentResult.status]

/-- `wfResults` splits across a cons cell. -/
theorem wfResults_cons (r : ComponentResult) (rs : List ComponentResult) :
    wfResults (r :: rs) = (wfResults [r] && wfResults rs) := by
  cases r
  simp [wfResults, Bool.and_assoc]

/-- `wfResults` splits across an append. -/
theorem wfResults_append (a b : List ComponentResult) :
    wfResults (a ++ b) = (wfResults a && wfResults b) := by
  induction a with
  | nil => simp [wfResults]
  | cons r rs ih =>
      cases r
      simp [wfResults, ih, Bool.and_assoc]

/-- On result trees in which every node that carries children takes its
`failed` status exactly from its children (the shape the walk produces),
the implementation's `hasFailure` coincides with "some leaf is
failed". -/
theorem wf_hasFailure : ∀ (rs : List ComponentResult), wfResults rs = true →
    hasFailure rs = anyFailedLeaf rs
  | [], _ => by simp [hasFailure, anyFailedLeaf]
  | .mk id ty st [] :: rest, h => by
      simp only [wfResults, Bool.and_eq_true] at h
      obtain ⟨⟨hA, hB⟩, hrest⟩ := h
      simp only [hasFailure, anyFailedLeaf]
      rw [wf_hasFailure rest hrest]
      simp [hasFailure]
  | .mk id ty st (c :: cs) :: rest, h => by
      simp only [wfResults, Bool.and_eq_true] at h
      obtain ⟨⟨hwf, hch⟩, hrest⟩ := h
      simp only [List.isEmpty_cons, Bool.false_or] at hwf
      simp only [hasFailure, anyFailedLeaf]
      rw [wf_hasFailure rest hrest]
      have hst : (st == CStatus.failed) = hasFailure (c :: cs) := by
        cases hfc : hasFailure (c :: cs) <;> rw [hfc] at hwf <;> simp_all
      rw [hst, wf_hasFailure (c :: cs) hch]
      cases anyFailedLeaf (c :: cs) <;> simp
termination_by rs => sizeOf rs

mutual
/-- The walk only produces well-formed result trees: branch/if_else
results take status `failed` exactly when their children contain a
failure. -/
theorem executeComponents_wf (env : ExecEnv) (cs : List Component) (t : Nat) :
    wfResults (executeComponents env cs t).1 = true := by
  match cs with
  | [] => simp [executeComponents, wfResults]
  | comp :: rest =>
      have h1 := executeOne_wf env comp t
      rcases hE : executeOne env comp t with ⟨result, t'⟩
      rw [hE] at h1
      have h2 := executeComponents_wf env rest t'
      cases comp with
      | condition id =>
          by_cases hs : result.status == CStatus.skipped
          · simp [executeComponents, hE, hs, h1]
          · simp only [executeComponents, hE]
            simp only [hs, Bool.false_eq_true, if_false]
            rw [wfResults_cons]
            simp [h1, h2]
      | action id continueOnError =>
          by_cases hs : (result.status == CStatus.failed && !continueOnError) = true
          · simp [executeComponents, hE, hs, h1]
          · simp only [executeComponents, hE]
            simp only [hs, Bool.false_eq_true, if_false]
            rw [wfResults_cons]
            simp [h1, h2]
      | branch id sub =>
          simp only [executeComponents, hE]
          rw [wfResults_cons]
          simp [h1, h2]
      | ifElse id thenComponents elseComponents =>
          simp only [executeComponents, hE]
          rw [wfResults_cons]
          simp [h1, h2]
termination_by (sizeOf cs, 0)

theorem executeOne_wf (env : ExecEnv) (comp : Component) (t : Nat) :
    wfResults [(executeOne env comp t).1] = true := by
  match comp with
  | .action id continueOnError =>
      simp [executeOne, wfResults]
  | .condition id =>
      cases h : env.conditionOutcome t <;> simp [executeOne, h, wfResults]
  | .branch id sub =>
      cases h : env.branchOutcome t with
      | threw => simp [executeOne, h, wfResults]
      | noSourceItem => simp [executeOne, h, wfResults]
      | noQuery => simp [executeOne, h, wfResults]
      | iterate n =>
          have hw := executeIterations_wf env sub n (t + 1)
          rcases hI : executeIterations env sub n (t + 1) with ⟨children, t'⟩
          rw [hI] at hw
          simp only [executeOne, h, hI]
          simp only [wfResults, Bool.and_eq_true]
          refine ⟨⟨?_, hw⟩, by simp [wfResults]⟩
          cases hf : hasFailure children <;> simp [hf]
  | .ifElse id thenComponents elseComponents =>
      cases h : env.ifOutcome t with
      | threw => simp [executeOne, h, wfResults]
      | cond passed =>
          cases passed with
          | true =>
              have hw := executeComponents_wf env thenComponents (t + 1)
              rcases hI : executeComponents env thenComponents (t + 1) with ⟨children, t'⟩
              rw [hI] at hw
              simp only [executeOne, h, hI]
              simp only [wfResults, Bool.and_eq_true]
              refine ⟨⟨?_, hw⟩, by simp [wfResults]⟩
              cases hf : hasFailure children <;> simp [hf]
          | false =>
              by_cases he : elseComponents.isEmpty
              · simp [executeOne, h, he, wfResults]
              · have hw := executeComponents_wf env elseComponents (t + 1)
                rcases hI : executeComponents env elseComponents (t + 1) with ⟨children, t'⟩
                rw [hI] at hw
                simp only [executeOne, h, hI, he, Bool.false_eq_true, if_false]
                simp only [wfResults, Bool.and_eq_true]
                refine ⟨⟨?_, hw⟩, by simp [wfResults]⟩
                cases hf : hasFailure children <;> simp [hf]
termination_by (sizeOf comp, 0)

theorem executeIterations_wf (env : ExecEnv) (sub : List Component) (n : Nat) (t : Nat) :
    wfResults (executeIterations env sub n t).1 = true := by
  match n with
  | 0 => simp [executeIterations, wfResults]
  | m + 1 =>
      have h1 := executeComponents_wf env sub t
      rcases hE : executeComponents env sub t with ⟨rs, t'⟩
      rw [hE] at h1
      have h2 := executeIterations_wf env sub m t'
      rcases hI : executeIterations env sub m t' with ⟨rest, t''⟩
      rw [hI] at h2
      simp only [executeIterations, hE, hI]
      rw [wfResults_append]
      simp [h1, h2]
termination_by (sizeOf sub, n)
end

/-- **C1.** For every completed component walk (executor.ts:276-299), the
persisted status computed by `runExecution` is `FAILED` iff some leaf of
the produced ComponentResult tree (searching children recursively) has
status `failed`, and `SUCCESS` otherwise — for every outcome environment,
component tree and starting step. -/
theorem C1_failed_iff_failed_leaf :
    ∀ (env : ExecEnv) (components : List Component) (t : Nat),
      (runStatus (executeComponents env components t).1 = "FAILED" ↔
        anyFailedLeaf (executeComponents env components t).1 = true) ∧
      (runStatus (executeComponents env components t).1 = "SUCCESS" ↔
        anyFailedLeaf (executeComponents env components t).1 = false) := by
  intro env components t
  have hwf := executeComponents_wf env components t
  have heq := wf_hasFailure _ hwf
  unfold runStatus
  rw [← heq]
  cases h : hasFailure (executeComponents env components t).1 <;> simp [h]

/-- Witness for C3 at a concrete environment (every action fails, every
condition evaluates false): the condition stops its sibling, the
non-`continueOnError` action stops its sibling, the `continueOnError`
action lets the walk continue. -/
theorem C3_witness :
    ((fun (_ : Nat) => CondOutcome.notPassed) 0 = CondOutcome.notPassed ∧
     executeComponents
       ⟨fun _ => true, fun _ => CondOutcome.notPassed, fun _ => .iterate 0, fun _ => .cond true⟩
       (.condition "c1" :: [.action "a1" false]) 0
       = ([.mk "c1" "condition" .skipped []], 1)) ∧
    executeComponents
       ⟨fun _ => true, fun _ => CondOutcome.notPassed, fun _ => .iterate 0, fun _ => .cond true⟩
       (.action "a1" false :: [.action "a2" false]) 0
       = ([.mk "a1" "action" .failed []], 1) ∧
    executeComponents
       ⟨fun _ => true, fun _ => CondOutcome.notPassed, fun _ => .iterate 0, fun _ => .cond true⟩
       (.action "a1" true :: [.action "a2" false]) 0
       = (ComponentResult.mk "a1" "action" .failed []
            :: (executeComponents
                 ⟨fun _ => true, fun _ => CondOutcome.notPassed, fun _ => .iterate 0,
                  fun _ => .cond true⟩ [.action "a2" false] 1).1,
          (executeComponents
             ⟨fun _ => true, fun _ => CondOutcome.notPassed, fun _ => .iterate 0,
              fun _ => .cond true⟩ [.action "a2" false] 1).2) := by
  refine ⟨⟨rfl, ?_⟩, ?_, ?_⟩
  · exact (C3_walk_stop _ "c1" [.action "a1" false] 0).1 rfl
  · exact (C3_walk_stop _ "a1" [.action "a2" false] 0).2.1 rfl
  · exact (C3_walk_stop _ "a1" [.action "a2" false] 0).2.2 rfl

theorem join_foldl_aux : ∀ (l : List String) (a : String),
    l.foldl (· ++ ·) a = a ++ String.join l := by
  intro l
  induction l with
  | nil => intro a; simp [String.join, String.append_empty]
  | cons s rest ih =>
      intro a
      show (s :: rest).foldl (· ++ ·) a = a ++ String.join (s :: rest)
      rw [List.foldl_cons, ih]
      have : String.join (s :: rest) = s ++ String.join rest := by
        show (s :: rest).foldl (· ++ ·) "" = s ++ String.join rest
        rw [List.foldl_cons, ih]
        simp [String.empty_append]
      rw [this, String.append_assoc]

theorem join_cons (s : String) (l : List String) :
    String.join (s :: l) = s ++ String.join l := by
  show (s :: l).foldl (· ++ ·) "" = s ++ String.join l
  rw [List.foldl_cons, join_foldl_aux]
  simp [String.empty_append]

theorem mem_data_join : ∀ (l : List String) (c : Char),
    c ∈ (String.join l).data → ∃ s ∈ l, c ∈ s.data := by
  intro l
  induction l with
  | nil => intro c hc; simp [String.join] at hc
  | cons s rest ih =>
      intro c hc
      rw [join_cons] at hc
      rw [String.data_append] at hc
      rcases List.mem_append.mp hc with h | h
      · exact ⟨s, by simp, h⟩
      · obtain ⟨u, hu, hcu⟩ := ih c h
        exact ⟨u, by simp [hu], hcu⟩

theorem intercalate_go_empty : ∀ (l : List String) (acc : String),
    String.intercalate.go acc "" l = acc ++ String.join l := by
  intro l
  induction l with
  | nil => intro acc; simp [String.intercalate.go, String.join, String.append_empty]
  | cons s rest ih =>
      intro acc
      rw [String.intercalate.go, ih, join_cons]
      rw [String.append_empty, String.append_assoc]

theorem intercalate_empty_join : ∀ l : List String, String.intercalate "" l = String.join l := by
  intro l
  cases l with
  | nil => rfl
  | cons s rest =>
      rw [String.intercalate, intercalate_go_empty, join_cons]

theorem mapExecute_keyItems : ∀ ss : List String,
    mapExecute (vArr (keyItems ss)) [vStr "key"] = vArr (ss.map vStr) := by
  intro ss
  simp only [mapExecute, keyItems]
  congr 1
  induction ss with
  | nil => rfl
  | cons s rest ih =>
      simp only [List.map_cons]
      rw [ih]
      rfl

theorem joinMap_keyItems (ss : List String) :
    joinExecute (mapExecute (vArr (keyItems ss)) [vStr "key"]) [vStr ""]
      = vStr (String.join ss) := by
  rw [mapExecute_keyItems]
  show vStr (String.intercalate "" ((ss.map vStr).map jsString)) = vStr (String.join ss)
  rw [List.map_map]
  have hm : ss.map (jsString ∘ vStr) = ss := by
    induction ss with
    | nil => rfl
    | cons s rest ih => simp only [List.map_cons]; rw [ih]; rfl
  rw [hm, intercalate_empty_join]

theorem eachExpand_keyItems (ctx0 : CtxM) (total : Nat) :
    ∀ (ss : List String) (i : Nat),
      eachExpand ctx0 ("\x7b\x7bcurrentItem.key\x7d\x7d".data) total (keyItems ss) i
        = .ok ss := by
  intro ss
  induction ss with
  | nil => intro i; rfl
  | cons s rest ih =>
      intro i
      have hk : keyItems (s :: rest) = vObj [("key", vStr s)] :: keyItems rest := rfl
      have step : eachExpand ctx0 ("\x7b\x7bcurrentItem.key\x7d\x7d".data) total
            (vObj [("key", vStr s)] :: keyItems rest) i
          = Except.bind (eachExpand ctx0 ("\x7b\x7bcurrentItem.key\x7d\x7d".data) total
              (keyItems rest) (i + 1))
              (fun r => Except.ok (((s.data ++ []).asString) :: r)) := rfl
      rw [hk, step, ih (i + 1)]
      simp [Except.bind, List.asString]

theorem scanMatches_eq_nil (matchAt : List Char → Option (Nat × List Char × String))
    (hm : ∀ cs, (matchAt cs).isSome → '\x7b' ∈ cs) :
    ∀ (fuel pos : Nat) (cs : List Char), '\x7b' ∉ cs → scanMatches matchAt fuel pos cs = [] := by
  intro fuel
  induction fuel with
  | zero => intro pos cs _; rfl
  | succ f ih =>
      intro pos cs h
      cases cs with
      | nil => rfl
      | cons c rest =>
          have hnone : matchAt (c :: rest) = none := by
            cases hmm : matchAt (c :: rest) with
            | none => rfl
            | some x => exact absurd (hm _ (by simp [hmm])) h
          simp only [scanMatches, hnone]
          exact ih (pos + 1) rest (fun hr => h (List.mem_cons_of_mem _ hr))

theorem eachOpenMatchAt_lbrace (cs : List Char) (h : (eachOpenMatchAt cs).isSome) :
    '\x7b' ∈ cs := by
  by_cases hp : (("\x7b\x7b#each".data).isPrefixOf cs) = true
  · obtain ⟨t, ht⟩ := List.isPrefixOf_iff_prefix.mp hp
    rw [← ht]
    exact List.mem_append.mpr (Or.inl (by decide))
  · simp [eachOpenMatchAt, hp] at h

theorem ifOpenMatchAt_lbrace (cs : List Char) (h : (ifOpenMatchAt cs).isSome) :
    '\x7b' ∈ cs := by
  by_cases hp : (("\x7b\x7b#if".data).isPrefixOf cs) = true
  · obtain ⟨t, ht⟩ := List.isPrefixOf_iff_prefix.mp hp
    rw [← ht]
    exact List.mem_append.mpr (Or.inl (by decide))
  · simp [ifOpenMatchAt, hp] at h

theorem templateMatchAt_lbrace (cs : List Char) (h : (templateMatchAt cs).isSome) :
    '\x7b' ∈ cs := by
  by_cases hp : (("\x7b\x7b".data).isPrefixOf cs) = true
  · obtain ⟨t, ht⟩ := List.isPrefixOf_iff_prefix.mp hp
    rw [← ht]
    exact List.mem_append.mpr (Or.inl (by decide))
  · simp [templateMatchAt, hp] at h

theorem processInnermostEach_no_brace (ctx : CtxM) (s : String) (h : '\x7b' ∉ s.data) :
    processInnermostEach ctx s = .ok none := by
  have hscan := scanMatches_eq_nil eachOpenMatchAt eachOpenMatchAt_lbrace
    (s.length + 1) 0 s.data h
  simp [processInnermostEach, innermostCandidates, hscan]

theorem processInnermostIf_no_brace (ctx : CtxM) (s : String) (h : '\x7b' ∉ s.data) :
    processInnermostIf ctx s = .ok none := by
  have hscan := scanMatches_eq_nil ifOpenMatchAt ifOpenMatchAt_lbrace
    (s.length + 1) 0 s.data h
  simp [processInnermostIf, innermostCandidates, hscan]

theorem templateMatches_no_brace (s : String) (h : '\x7b' ∉ s.data) :
    templateMatches s.data = [] := by
  have hscan := scanMatches_eq_nil templateMatchAt templateMatchAt_lbrace
    (s.length + 1) 0 s.data h
  simp [templateMatches, hscan]

/-- C8 (amended). For a collection of objects with a string "key" field, the
each-block template resolves to the same string as the direct registry
application join("")(map("key")(coll)); but the spec's claimed pipe expression
`coll | map("key") | join("")` does NOT resolve equivalently (see the
counterexample): the parser accepts at most one pipe, so the smart resolver
falls back to the legacy resolver, which yields a different result. -/
theorem C8_each_equiv :
    ∀ ss : List String, (∀ s ∈ ss, '\x7b' ∉ s.data) →
      resolveString (collCtx (keyItems ss)) eachTemplate
        = .ok (jsString (joinExecute (mapExecute (vArr (keyItems ss)) [vStr "key"]) [vStr ""])) ∧
      joinExecute (mapExecute (vArr (keyItems ss)) [vStr "key"]) [vStr ""]
        = vStr (String.join ss) := by
  intro ss hss
  have hjm := joinMap_keyItems ss
  refine ⟨?_, hjm⟩
  rw [hjm]
  show resolveString (collCtx (keyItems ss)) eachTemplate = .ok (String.join ss)
  have hnb : '\x7b' ∉ (String.join ss).data := by
    intro hc
    obtain ⟨s, hs, hcs⟩ := mem_data_join ss _ hc
    exact hss s hs hcs
  have hEach : processInnermostEach (collCtx (keyItems ss)) eachTemplate
      = .ok (some (String.join ss)) := by
    have hstep : processInnermostEach (collCtx (keyItems ss)) eachTemplate
        = Except.bind
            (eachExpand (collCtx (keyItems ss)) ("\x7b\x7bcurrentItem.key\x7d\x7d".data)
              (keyItems ss).length (keyItems ss) 0)
            (fun parts =>
              Except.ok (some (((String.join parts).data ++ ([] : List Char)).asString))) := rfl
    rw [hstep, eachExpand_keyItems _ _ ss 0]
    simp only [Except.bind]
    rw [List.append_nil]
    rfl
  have hPB : processBlocks (collCtx (keyItems ss)) eachTemplate = .ok (String.join ss) := by
    show processBlocksGo _ 100 eachTemplate = _
    simp only [processBlocksGo, hEach, processInnermostEach_no_brace _ _ hnb,
               processInnermostIf_no_brace _ _ hnb, Except.instMonad, Except.bind]
  have hTM := templateMatches_no_brace (String.join ss) hnb
  have hc1 : containsSub ("\x7b\x7b".data) eachTemplate.data = true := rfl
  have hc2 : blockTagTest eachTemplate.data = true := rfl
  simp only [resolveString, hc1, Bool.not_true, Bool.false_eq_true, if_false, hc2, if_true,
             Except.instMonad, Except.bind, hPB, hTM, resolveStringApply]
  rfl

theorem C8_counterexample :
    resolveString (collCtx (keyItems ["a", "b"])) eachTemplate = .ok "ab" ∧
    resolveString (collCtx (keyItems ["a", "b"])) pipeTemplate = .ok "" ∧
    ("ab" : String) ≠ "" := by
  exact ⟨rfl, rfl, by decide⟩

theorem C8_witness :
    (∀ s ∈ (["a", "b"] : List String), '\x7b' ∉ s.data) ∧
    (resolveString (collCtx (keyItems ["a", "b"])) eachTemplate
      = .ok (jsString (joinExecute (mapExecute (vArr (keyItems ["a", "b"])) [vStr "key"])
               [vStr ""])) ∧
     joinExecute (mapExecute (vArr (keyItems ["a", "b"])) [vStr "key"]) [vStr ""]
      = vStr (String.join ["a", "b"])) := by
  refine ⟨by decide, C8_each_equiv ["a", "b"] (by decide)⟩
